import Mathlib

/-!
Wall-run locomotion of `AWallRunCharacter`.

A shallow embedding of `Source/WallRun/WallRunCharacter.cpp`.

Modelling conventions.

* `float` is idealised as `ℚ`: rounding, infinities and NaN are not modelled.
  The literal `0.001f` is the rational `0.001`.
* The engine's reciprocal square root (`FMath::InvSqrt`) is not rational, so
  every function that normalises a vector takes it as the parameter
  `InvSqrt : ℚ → ℚ`.
* The character, its movement component, the timer manager entry of
  `WallRunTimerHandle`, and the presenter's tilt requests are gathered in one
  record, `AWallRunCharacter`; every member function is a pure function on
  that record.
* The world is the line-trace function handed to `UpdateWallRun`.
-/

namespace WallRun

/-! ## Engine vectors -/

/-- The engine's `FVector`, with rational components. -/
structure FVector where
  X : ℚ
  Y : ℚ
  Z : ℚ
deriving DecidableEq

namespace FVector

/-- The constant `FVector::ZeroVector`. -/
def ZeroVector : FVector := ⟨0, 0, 0⟩

/-- The constant `FVector::UpVector`. -/
def UpVector : FVector := ⟨0, 0, 1⟩

/-- Component-wise sum, `operator+`. -/
def add (a b : FVector) : FVector := ⟨a.X + b.X, a.Y + b.Y, a.Z + b.Z⟩

/-- Component-wise negation, unary `operator-`. -/
def neg (a : FVector) : FVector := ⟨-a.X, -a.Y, -a.Z⟩

/-- Scaling by a scalar, `float * FVector`. -/
def scale (k : ℚ) (a : FVector) : FVector := ⟨k * a.X, k * a.Y, k * a.Z⟩

/-- The engine's `FVector::DotProduct`. -/
def DotProduct (a b : FVector) : ℚ := a.X * b.X + a.Y * b.Y + a.Z * b.Z

/-- The engine's `FVector::CrossProduct`. -/
def CrossProduct (a b : FVector) : FVector :=
  ⟨a.Y * b.Z - a.Z * b.Y, a.Z * b.X - a.X * b.Z, a.X * b.Y - a.Y * b.X⟩

/-- The engine's `FVector::SizeSquared`. -/
def SizeSquared (a : FVector) : ℚ := a.X * a.X + a.Y * a.Y + a.Z * a.Z

/-- The engine's `FVector::GetSafeNormal` with its default tolerance
`SMALL_NUMBER = 1e-8`: a vector of squared length one is returned as is, a
vector of squared length below the tolerance gives the zero vector, any other
vector is scaled by the reciprocal square root of its squared length. -/
def GetSafeNormal (InvSqrt : ℚ → ℚ) (a : FVector) : FVector :=
  let SquareSum := a.SizeSquared
  if SquareSum = 1 then a
  else if SquareSum < 1 / 100000000 then ZeroVector
  else scale (InvSqrt SquareSum) a

/-- The vector with its horizontal components negated and its vertical
component kept. -/
def NegateHorizontal (a : FVector) : FVector := ⟨-a.X, -a.Y, a.Z⟩

end FVector

/-! ## Data model -/

/-- The enumeration `EWallRunSide`. -/
inductive EWallRunSide where
  | None
  | Left
  | Right
deriving DecidableEq

/-- The part of the engine's `FHitResult` that the character reads. -/
structure FHitResult where
  ImpactNormal : FVector
deriving DecidableEq

/-- The arguments of one `LaunchCharacter` call. -/
structure FLaunch where
  LaunchVelocity : FVector
  bXYOverride : Bool
  bZOverride : Bool
deriving DecidableEq

/-- The character together with the collaborators its wall-run code reads and
writes.

* `bIsWallRunning` … `MaxWallRunTime` are members of `AWallRunCharacter`.
* `ActorLocation`, `ActorRightVector` are what `GetActorLocation()` and
  `GetActorRightVector()` return.
* `IsFalling`, `WalkableFloorZ`, `MaxSpeed`, `JumpZVelocity`, `Velocity`,
  `PlaneConstraintNormal` belong to the character movement component
  (`IsFalling()`, `GetWalkableFloorZ()`, `GetMaxSpeed()`, and the fields).
* `WallRunTimerHandle` is the timer-manager entry of the handle: `some r` when
  a one-shot timer of rate `r` calling `StopWallRun` is pending.
* `TiltBeginRequests`, `TiltEndRequests` count the calls of `BeginCameraTilt`
  and `EndCameraTilt`.
* `Launches` lists the `LaunchCharacter` calls, oldest first.
* `bPressedJump` is the flag set by the base class `ACharacter::Jump`. -/
structure AWallRunCharacter where
  bIsWallRunning : Bool
  CurrentWallRunSide : EWallRunSide
  CurrentDirection : FVector
  ForwardAxis : ℚ
  RightAxis : ℚ
  MaxWallRunTime : ℚ
  ActorLocation : FVector
  ActorRightVector : FVector
  IsFalling : Bool
  WalkableFloorZ : ℚ
  MaxSpeed : ℚ
  JumpZVelocity : ℚ
  Velocity : FVector
  PlaneConstraintNormal : FVector
  WallRunTimerHandle : Option ℚ
  TiltBeginRequests : Nat
  TiltEndRequests : Nat
  Launches : List FLaunch
  bPressedJump : Bool
deriving DecidableEq

/-- The world as seen by `LineTraceSingleByChannel(HitResult, Start, End, …)`:
`none` when the trace hits nothing, otherwise the hit. -/
abbrev FWorld := FVector → FVector → Option FHitResult

/-! ## Collaborator calls -/

/-- Modelled from the spec: `BeginCameraTilt` is declared in
`WallRunCharacter.h`, which is not among the sources; the spec describes it as
the request `RequestTiltBegin` sent to the presenter. The call is counted. -/
def BeginCameraTilt (s : AWallRunCharacter) : AWallRunCharacter :=
  { s with TiltBeginRequests := s.TiltBeginRequests + 1 }

/-- Modelled from the spec: `EndCameraTilt` is declared in
`WallRunCharacter.h`, which is not among the sources; the spec describes it as
the request `RequestTiltEnd` sent to the presenter. The call is counted. -/
def EndCameraTilt (s : AWallRunCharacter) : AWallRunCharacter :=
  { s with TiltEndRequests := s.TiltEndRequests + 1 }

/-- The movement component's `SetPlaneConstraintNormal`. -/
def SetPlaneConstraintNormal (s : AWallRunCharacter) (PlaneNormal : FVector) :
    AWallRunCharacter :=
  { s with PlaneConstraintNormal := PlaneNormal }

/-- The timer manager's `SetTimer(WallRunTimerHandle, this, StopWallRun, InRate,
false)`: the handle now denotes a pending one-shot timer of rate `InRate`,
replacing whatever it denoted before. -/
def SetTimer (s : AWallRunCharacter) (InRate : ℚ) : AWallRunCharacter :=
  { s with WallRunTimerHandle := some InRate }

/-- The engine's `LaunchCharacter`: the call is recorded. -/
def LaunchCharacter (s : AWallRunCharacter) (LaunchVelocity : FVector)
    (bXYOverride bZOverride : Bool) : AWallRunCharacter :=
  { s with Launches := s.Launches ++ [⟨LaunchVelocity, bXYOverride, bZOverride⟩] }

/-- The base class `ACharacter::Jump`, reached by `Super::Jump()`. -/
def SuperJump (s : AWallRunCharacter) : AWallRunCharacter :=
  { s with bPressedJump := true }

/-! ## Member functions of `AWallRunCharacter` -/

/-- The function `AWallRunCharacter::GetWallRunSideAndDirection`; the two out
parameters are returned as a pair. -/
def GetWallRunSideAndDirection (InvSqrt : ℚ → ℚ) (s : AWallRunCharacter)
    (HitNormal : FVector) : EWallRunSide × FVector :=
  if FVector.DotProduct HitNormal s.ActorRightVector > -0.001 then
    (EWallRunSide.Left,
      FVector.GetSafeNormal InvSqrt (FVector.CrossProduct HitNormal FVector.UpVector))
  else
    (EWallRunSide.Right,
      FVector.GetSafeNormal InvSqrt (FVector.CrossProduct FVector.UpVector HitNormal))

/-- The function `AWallRunCharacter::IsSurfaceWallRunnable`, as written. -/
def IsSurfaceWallRunnable (s : AWallRunCharacter) (WallNormal : FVector) : Bool :=
  if WallNormal.Z > s.WalkableFloorZ ∨ WallNormal.Z < 0 then
    true
  else
    false

/-- The function `AWallRunCharacter::AreRequiredKeyDown`. -/
def AreRequiredKeyDown (s : AWallRunCharacter) (WallRunSide : EWallRunSide) : Bool :=
  if s.ForwardAxis < 0.001 then
    false
  else if s.RightAxis > -0.001 ∧ WallRunSide = EWallRunSide.Left then
    false
  else if s.RightAxis < 0.001 ∧ WallRunSide = EWallRunSide.Right then
    false
  else
    true

/-- The function `AWallRunCharacter::StartWallRun`. -/
def StartWallRun (s : AWallRunCharacter) (WallRunSide : EWallRunSide)
    (Direction : FVector) : AWallRunCharacter :=
  let s1 := BeginCameraTilt s
  let s2 := { s1 with bIsWallRunning := true }
  let s3 := { s2 with CurrentWallRunSide := WallRunSide }
  let s4 := { s3 with CurrentDirection := Direction }
  let s5 := SetPlaneConstraintNormal s4 FVector.UpVector
  SetTimer s5 s5.MaxWallRunTime

/-- The function `AWallRunCharacter::StopWallRun`. -/
def StopWallRun (s : AWallRunCharacter) : AWallRunCharacter :=
  let s1 := EndCameraTilt s
  let s2 := { s1 with bIsWallRunning := false }
  SetPlaneConstraintNormal s2 FVector.ZeroVector

/-- The function `AWallRunCharacter::OnPlayerCapsuleHit`; of its arguments only
`Hit` is read. -/
def OnPlayerCapsuleHit (InvSqrt : ℚ → ℚ) (s : AWallRunCharacter) (Hit : FHitResult) :
    AWallRunCharacter :=
  if s.bIsWallRunning then
    s
  else
    let HitNormal := Hit.ImpactNormal
    if IsSurfaceWallRunnable s HitNormal then
      s
    else if !s.IsFalling then
      s
    else
      let (WallRunSide, Direction) := GetWallRunSideAndDirection InvSqrt s HitNormal
      if !AreRequiredKeyDown s WallRunSide then
        s
      else
        StartWallRun s WallRunSide Direction

/-- The start of the line trace in `UpdateWallRun`. -/
def StartPosition (s : AWallRunCharacter) : FVector := s.ActorLocation

/-- The direction of the line trace in `UpdateWallRun`. -/
def LineTraceDirection (s : AWallRunCharacter) : FVector :=
  if s.CurrentWallRunSide = EWallRunSide.Right then s.ActorRightVector
  else FVector.neg s.ActorRightVector

/-- The end of the line trace in `UpdateWallRun`, `LineTraceLength` being 200. -/
def EndPosition (s : AWallRunCharacter) : FVector :=
  FVector.add (StartPosition s) (FVector.scale 200 (LineTraceDirection s))

/-- The function `AWallRunCharacter::UpdateWallRun`, in the world `World`. -/
def UpdateWallRun (InvSqrt : ℚ → ℚ) (World : FWorld) (s : AWallRunCharacter) :
    AWallRunCharacter :=
  if !AreRequiredKeyDown s s.CurrentWallRunSide then
    StopWallRun s
  else
    match World (StartPosition s) (EndPosition s) with
    | some HitResult =>
      let (WallRunSide, Direction) :=
        GetWallRunSideAndDirection InvSqrt s HitResult.ImpactNormal
      if WallRunSide ≠ s.CurrentWallRunSide then
        StopWallRun s
      else
        let s1 := { s with CurrentDirection := Direction }
        { s1 with Velocity := FVector.scale s1.MaxSpeed s1.CurrentDirection }
    | none => StopWallRun s

/-- The function `AWallRunCharacter::Tick`, without the camera timeline. -/
def Tick (InvSqrt : ℚ → ℚ) (World : FWorld) (s : AWallRunCharacter) : AWallRunCharacter :=
  if s.bIsWallRunning then UpdateWallRun InvSqrt World s else s

/-- The launch direction computed by `AWallRunCharacter::Jump` before the
final normalisation. -/
def JumpDirection (InvSqrt : ℚ → ℚ) (s : AWallRunCharacter) : FVector :=
  let JumpDirection :=
    if s.CurrentWallRunSide = EWallRunSide.Right then
      FVector.GetSafeNormal InvSqrt (FVector.CrossProduct s.CurrentDirection FVector.UpVector)
    else
      FVector.GetSafeNormal InvSqrt (FVector.CrossProduct FVector.UpVector s.CurrentDirection)
  FVector.add JumpDirection FVector.UpVector

/-- The function `AWallRunCharacter::Jump`. -/
def Jump (InvSqrt : ℚ → ℚ) (s : AWallRunCharacter) : AWallRunCharacter :=
  if s.bIsWallRunning then
    let s1 := LaunchCharacter s
      (FVector.scale s.JumpZVelocity (FVector.GetSafeNormal InvSqrt (JumpDirection InvSqrt s)))
      false true
    StopWallRun s1
  else
    SuperJump s

/-- The function `AWallRunCharacter::MoveForward`; the movement input it adds
is consumed by the engine and not recorded. -/
def MoveForward (s : AWallRunCharacter) (Value : ℚ) : AWallRunCharacter :=
  { s with ForwardAxis := Value }

/-- The function `AWallRunCharacter::MoveRight`; the movement input it adds is
consumed by the engine and not recorded. -/
def MoveRight (s : AWallRunCharacter) (Value : ℚ) : AWallRunCharacter :=
  { s with RightAxis := Value }

/-- The timer manager firing the one-shot timer of `WallRunTimerHandle`: when a
timer is pending the handle is released and the callback `StopWallRun` runs;
when none is pending nothing happens. -/
def FireWallRunTimer (s : AWallRunCharacter) : AWallRunCharacter :=
  match s.WallRunTimerHandle with
  | some _ => StopWallRun { s with WallRunTimerHandle := none }
  | none => s

/-! ## The character as a state machine -/

/-- What the engine delivers to the character: a capsule hit, a tick (with the
world its line trace sees), the expiry of the wall-run timer, a jump request,
an axis value, or a movement update that changes the quantities the character
only reads. -/
inductive FEvent where
  | Contact (Hit : FHitResult)
  | Tick (World : FWorld)
  | Timeout
  | JumpRequest
  | AxisForward (Value : ℚ)
  | AxisRight (Value : ℚ)
  | Moved (bFalling : Bool) (Location RightVector Velocity : FVector)

/-- The character after one event. -/
def Step (InvSqrt : ℚ → ℚ) (s : AWallRunCharacter) : FEvent → AWallRunCharacter
  | FEvent.Contact Hit => OnPlayerCapsuleHit InvSqrt s Hit
  | FEvent.Tick World => Tick InvSqrt World s
  | FEvent.Timeout => FireWallRunTimer s
  | FEvent.JumpRequest => Jump InvSqrt s
  | FEvent.AxisForward Value => MoveForward s Value
  | FEvent.AxisRight Value => MoveRight s Value
  | FEvent.Moved bFalling Location RightVector Velocity =>
    { s with IsFalling := bFalling, ActorLocation := Location,
             ActorRightVector := RightVector, Velocity := Velocity }

/-- The character after a sequence of events, oldest first. -/
def Run (InvSqrt : ℚ → ℚ) (s : AWallRunCharacter) (events : List FEvent) :
    AWallRunCharacter :=
  events.foldl (Step InvSqrt) s

/-- Modelled from the spec: the member initialisers are in `WallRunCharacter.h`,
which is not among the sources; the spec has the run state created not-running
at spawn, the side `None` when not running, the plane constraint zero
(unconstrained), and a timer only once a run has armed it. -/
def IsInitial (s : AWallRunCharacter) : Prop :=
  s.bIsWallRunning = false ∧ s.CurrentWallRunSide = EWallRunSide.None ∧
    s.PlaneConstraintNormal = FVector.ZeroVector ∧ s.WallRunTimerHandle = none

/-- The states the character can be in: those a sequence of events leads to
from an initial state. -/
def Reachable (InvSqrt : ℚ → ℚ) (s : AWallRunCharacter) : Prop :=
  ∃ s0 events, IsInitial s0 ∧ s = Run InvSqrt s0 events

/-- The postcondition of an exit from the state `s`: not running, no plane
constraint, and exactly one more tilt-end request than in `s`. -/
def Exited (s r : AWallRunCharacter) : Prop :=
  r.bIsWallRunning = false ∧ r.PlaneConstraintNormal = FVector.ZeroVector ∧
    r.TiltEndRequests = s.TiltEndRequests + 1

/-! ## Worked inputs -/

/-- A sample reciprocal square root for the worked examples: the four-digit
value at 2, and 1 elsewhere (exact at 1). -/
def InvSqrtSample : ℚ → ℚ := fun x => if x = 2 then 7071 / 10000 else 1

/-- Scenario A before the contact: airborne, not running, right vector
`(0,1,0)`, both axes at 1, walkable floor threshold 0.71. -/
def ScenarioA : AWallRunCharacter :=
  { bIsWallRunning := false
    CurrentWallRunSide := EWallRunSide.None
    CurrentDirection := FVector.ZeroVector
    ForwardAxis := 1
    RightAxis := 1
    MaxWallRunTime := 2
    ActorLocation := ⟨0, 0, 100⟩
    ActorRightVector := ⟨0, 1, 0⟩
    IsFalling := true
    WalkableFloorZ := 0.71
    MaxSpeed := 600
    JumpZVelocity := 420
    Velocity := ⟨300, 0, -50⟩
    PlaneConstraintNormal := FVector.ZeroVector
    WallRunTimerHandle := none
    TiltBeginRequests := 0
    TiltEndRequests := 0
    Launches := []
    bPressedJump := false }

/-- The contact of Scenario A: impact normal `(0,-1,0)`. -/
def HitA : FHitResult := ⟨⟨0, -1, 0⟩⟩

/-- Scenario A after the contact: running on the side `Right` along `(1,0,0)`. -/
def RunningRight : AWallRunCharacter := StartWallRun ScenarioA EWallRunSide.Right ⟨1, 0, 0⟩

/-- Scenario D before the jump: running on the side `Left` along `(1,0,0)`. -/
def ScenarioD : AWallRunCharacter :=
  StartWallRun { ScenarioA with RightAxis := -1 } EWallRunSide.Left ⟨1, 0, 0⟩

/-- Scenario A with the forward axis exactly at the literal `0.001f`. -/
def AtEpsilon : AWallRunCharacter := { ScenarioA with ForwardAxis := 0.001 }

/-- Scenario A with the forward axis released. -/
def ForwardReleased : AWallRunCharacter := { ScenarioA with ForwardAxis := 0 }

/-- Scenario A steering left: an initial state from which the contact of normal
`(0,1,0)` leads to `ScenarioD`. -/
def ScenarioLeft : AWallRunCharacter := { ScenarioA with RightAxis := -1 }

/-- A unit horizontal normal just inside the epsilon band of the side test for
the right vector `(0,1,0)`: its Y component is about -0.001. -/
def BandNormal : FVector := ⟨3999999 / 4000001, -4000 / 4000001, 0⟩

/-- A normal whose horizontal part is not zero but shorter than the tolerance of
`GetSafeNormal`. -/
def SteepNormal : FVector := ⟨1 / 100000, 0, 1⟩

/-- Scenario A with the character tilted: the right vector `(0,3/5,4/5)` is not
horizontal. -/
def Tilted : AWallRunCharacter := { ScenarioA with ActorRightVector := ⟨0, 3 / 5, 4 / 5⟩ }

/-- The run that the pair derived from `SteepNormal` (the side `Left`, the zero
direction) starts from `ScenarioLeft`. -/
def SteepRun : AWallRunCharacter :=
  StartWallRun ScenarioLeft EWallRunSide.Left FVector.ZeroVector

/-- A world in which no line trace hits anything. -/
def EmptyWorld : FWorld := fun _ _ => none

/-- A world in which every line trace hits a surface of the given normal. -/
def WallWorld (Normal : FVector) : FWorld := fun _ _ => some ⟨Normal⟩

/-! ## Auxiliary facts -/

/-- The test in `IsSurfaceWallRunnable`, spelled out. -/
theorem IsSurfaceWallRunnable_eq_true_iff (s : AWallRunCharacter) (n : FVector) :
    IsSurfaceWallRunnable s n = true ↔ (n.Z > s.WalkableFloorZ ∨ n.Z < 0) := by
  unfold IsSurfaceWallRunnable
  split_ifs with h <;> simp [h]

/-- The test in `IsSurfaceWallRunnable` fails exactly between 0 and the
walkable floor threshold. -/
theorem IsSurfaceWallRunnable_eq_false_iff (s : AWallRunCharacter) (n : FVector) :
    IsSurfaceWallRunnable s n = false ↔ (0 ≤ n.Z ∧ n.Z ≤ s.WalkableFloorZ) := by
  unfold IsSurfaceWallRunnable
  split_ifs with h
  · simp only [Bool.true_eq_false, false_iff, not_and, not_le]
    intro h0
    rcases h with h | h
    · exact h
    · exact absurd h0 (not_le.mpr h)
  · simp only [true_iff]
    push_neg at h
    exact ⟨h.2, h.1⟩

/-- A contact that passes all four checks of `OnPlayerCapsuleHit` reaches
`StartWallRun` with the derived side and direction. -/
theorem OnPlayerCapsuleHit_eq_StartWallRun (InvSqrt : ℚ → ℚ) (s : AWallRunCharacter)
    (Hit : FHitResult) (hrun : s.bIsWallRunning = false)
    (hsurf : IsSurfaceWallRunnable s Hit.ImpactNormal = false)
    (hfall : s.IsFalling = true)
    (hkeys : AreRequiredKeyDown s
      (GetWallRunSideAndDirection InvSqrt s Hit.ImpactNormal).1 = true) :
    OnPlayerCapsuleHit InvSqrt s Hit =
      StartWallRun s (GetWallRunSideAndDirection InvSqrt s Hit.ImpactNormal).1
        (GetWallRunSideAndDirection InvSqrt s Hit.ImpactNormal).2 := by
  unfold OnPlayerCapsuleHit
  simp [hrun, hsurf, hfall, hkeys]

/-- Scenario A: the side derived from the contact is `Right`, the direction
`(1,0,0)`. -/
theorem ScenarioA_side :
    GetWallRunSideAndDirection InvSqrtSample ScenarioA HitA.ImpactNormal =
      (EWallRunSide.Right, ⟨1, 0, 0⟩) := by
  norm_num [GetWallRunSideAndDirection, ScenarioA, HitA, FVector.DotProduct,
    FVector.CrossProduct, FVector.UpVector, FVector.GetSafeNormal, FVector.SizeSquared]

/-- Scenario A: the required keys are down for the side `Right`. -/
theorem ScenarioA_keys : AreRequiredKeyDown ScenarioA EWallRunSide.Right = true := by
  norm_num [AreRequiredKeyDown, ScenarioA]
  decide

/-- A tick in which the required keys are not down stops the run. -/
theorem UpdateWallRun_keys_up (InvSqrt : ℚ → ℚ) (World : FWorld) (s : AWallRunCharacter)
    (hk : AreRequiredKeyDown s s.CurrentWallRunSide = false) :
    UpdateWallRun InvSqrt World s = StopWallRun s := by
  simp [UpdateWallRun, hk]

/-- A tick whose line trace hits nothing stops the run. -/
theorem UpdateWallRun_no_hit (InvSqrt : ℚ → ℚ) (World : FWorld) (s : AWallRunCharacter)
    (hw : World (StartPosition s) (EndPosition s) = none) :
    UpdateWallRun InvSqrt World s = StopWallRun s := by
  simp only [UpdateWallRun, hw]
  split_ifs <;> rfl

/-- A tick whose trace normal derives another side stops the run. -/
theorem UpdateWallRun_side_differs (InvSqrt : ℚ → ℚ) (World : FWorld)
    (s : AWallRunCharacter) (HitResult : FHitResult)
    (hw : World (StartPosition s) (EndPosition s) = some HitResult)
    (hside : (GetWallRunSideAndDirection InvSqrt s HitResult.ImpactNormal).1 ≠
      s.CurrentWallRunSide) :
    UpdateWallRun InvSqrt World s = StopWallRun s := by
  simp only [UpdateWallRun, hw]
  rcases hG : GetWallRunSideAndDirection InvSqrt s HitResult.ImpactNormal with ⟨a, b⟩
  rw [hG] at hside
  split_ifs with h1
  · rfl
  · simp only [ne_eq] at hside ⊢

/-- A tick with the keys down whose trace normal derives the current side
stores the fresh direction and overrides the velocity. -/
theorem UpdateWallRun_continues (InvSqrt : ℚ → ℚ) (World : FWorld)
    (s : AWallRunCharacter) (HitResult : FHitResult)
    (hk : AreRequiredKeyDown s s.CurrentWallRunSide = true)
    (hw : World (StartPosition s) (EndPosition s) = some HitResult)
    (hside : (GetWallRunSideAndDirection InvSqrt s HitResult.ImpactNormal).1 =
      s.CurrentWallRunSide) :
    UpdateWallRun InvSqrt World s =
      { s with
        CurrentDirection := (GetWallRunSideAndDirection InvSqrt s HitResult.ImpactNormal).2
        Velocity := FVector.scale s.MaxSpeed
          (GetWallRunSideAndDirection InvSqrt s HitResult.ImpactNormal).2 } := by
  simp only [UpdateWallRun, hw, hk]
  rcases hG : GetWallRunSideAndDirection InvSqrt s HitResult.ImpactNormal with ⟨a, b⟩
  rw [hG] at hside
  simp only [Bool.not_true, Bool.false_eq_true, if_false, ne_eq]
  simp only [] at hside
  rw [if_neg (not_not.mpr hside)]

/-- Scenario A: the contact leads to the running state `RunningRight`. -/
theorem ScenarioA_contact : OnPlayerCapsuleHit InvSqrtSample ScenarioA HitA = RunningRight := by
  rw [OnPlayerCapsuleHit_eq_StartWallRun InvSqrtSample ScenarioA HitA rfl
    ((IsSurfaceWallRunnable_eq_false_iff _ _).mpr (by norm_num [ScenarioA, HitA])) rfl
    (by rw [ScenarioA_side]; exact ScenarioA_keys), ScenarioA_side]
  rfl

/-- Scenario A is an initial state. -/
theorem ScenarioA_initial : IsInitial ScenarioA := ⟨rfl, rfl, rfl, rfl⟩

/-- One more event at the end of a sequence is one more step. -/
theorem Run_append_event (InvSqrt : ℚ → ℚ) (s : AWallRunCharacter) (events : List FEvent)
    (e : FEvent) : Run InvSqrt s (events ++ [e]) = Step InvSqrt (Run InvSqrt s events) e := by
  simp [Run, List.foldl_append]

/-- A property of the initial states that every step preserves holds in every
reachable state. -/
theorem Reachable.induction (InvSqrt : ℚ → ℚ) (P : AWallRunCharacter → Prop)
    (hinit : ∀ s, IsInitial s → P s)
    (hstep : ∀ s e, P s → P (Step InvSqrt s e))
    (s : AWallRunCharacter) (hs : Reachable InvSqrt s) : P s := by
  obtain ⟨s0, events, h0, rfl⟩ := hs
  induction events using List.reverseRecOn with
  | nil => exact hinit s0 h0
  | append_singleton es e ih =>
    rw [Run_append_event]
    exact hstep _ e ih

/-- No step changes the configured `MaxWallRunTime`, and a step that ends in a
running state ends with the timer pending at that rate, provided this held
before. -/
theorem Step_timer_pending (InvSqrt : ℚ → ℚ) (s : AWallRunCharacter) (e : FEvent)
    (h : s.bIsWallRunning = true → s.WallRunTimerHandle = some s.MaxWallRunTime) :
    (Step InvSqrt s e).bIsWallRunning = true →
      (Step InvSqrt s e).WallRunTimerHandle = some (Step InvSqrt s e).MaxWallRunTime := by
  have hstop : ∀ t : AWallRunCharacter, (StopWallRun t).bIsWallRunning = true →
      (StopWallRun t).WallRunTimerHandle = some (StopWallRun t).MaxWallRunTime := by
    intro t hh
    exact absurd (show false = true from hh) (by decide)
  cases e with
  | Contact Hit =>
    simp only [Step, OnPlayerCapsuleHit]
    split_ifs <;> first | exact h | (intro _; rfl)
  | Tick World =>
    simp only [Step, Tick]
    split_ifs with hrun
    · cases hw : World (StartPosition s) (EndPosition s) with
      | none =>
        rw [UpdateWallRun_no_hit InvSqrt World s hw]
        exact hstop s
      | some HitResult =>
        simp only [UpdateWallRun, hw]
        split_ifs <;> first | exact hstop s | (intro _; exact h hrun)
    · exact h
  | Timeout =>
    simp only [Step, FireWallRunTimer]
    split
    · exact hstop _
    · exact h
  | JumpRequest =>
    simp only [Step, Jump]
    split_ifs with hrun
    · exact hstop _
    · intro hh; exact absurd hh hrun
  | AxisForward Value => exact h
  | AxisRight Value => exact h
  | Moved bFalling Location RightVector Velocity => exact h

/-- Every reachable state that is running has the timer pending at the rate
`MaxWallRunTime`. -/
theorem Reachable_timer_pending (InvSqrt : ℚ → ℚ) (s : AWallRunCharacter)
    (hs : Reachable InvSqrt s) :
    s.bIsWallRunning = true → s.WallRunTimerHandle = some s.MaxWallRunTime := by
  refine Reachable.induction InvSqrt
    (fun t => t.bIsWallRunning = true → t.WallRunTimerHandle = some t.MaxWallRunTime)
    ?_ (fun t e ht => Step_timer_pending InvSqrt t e ht) s hs
  intro t ht hrun
  rw [ht.1] at hrun
  exact absurd hrun (by decide)

/-- Scenario A followed by a tick whose trace hits nothing: the run has
started and stopped. -/
theorem ScenarioA_run_exit :
    Run InvSqrtSample ScenarioA [FEvent.Contact HitA, FEvent.Tick EmptyWorld] =
      StopWallRun RunningRight := by
  have hr : RunningRight.bIsWallRunning = true := rfl
  simp only [Run, List.foldl, Step, ScenarioA_contact, Tick, hr, if_true]
  exact UpdateWallRun_no_hit _ _ _ rfl

/-- The derived side and direction depend on the character through its right
vector alone. -/
theorem GetWallRunSideAndDirection_congr (InvSqrt : ℚ → ℚ) (s t : AWallRunCharacter)
    (n : FVector) (h : s.ActorRightVector = t.ActorRightVector) :
    GetWallRunSideAndDirection InvSqrt s n = GetWallRunSideAndDirection InvSqrt t n := by
  simp only [GetWallRunSideAndDirection, h]

/-- The key check depends on the character through its two axis values alone. -/
theorem AreRequiredKeyDown_congr (s t : AWallRunCharacter) (side : EWallRunSide)
    (hf : s.ForwardAxis = t.ForwardAxis) (hr : s.RightAxis = t.RightAxis) :
    AreRequiredKeyDown s side = AreRequiredKeyDown t side := by
  simp only [AreRequiredKeyDown, hf, hr]

/-- The horizontal part of the launch in Scenario D. -/
theorem ScenarioD_cross :
    FVector.GetSafeNormal InvSqrtSample (FVector.CrossProduct FVector.UpVector ⟨1, 0, 0⟩) =
      ⟨0, 1, 0⟩ := by
  norm_num [FVector.CrossProduct, FVector.UpVector, FVector.GetSafeNormal,
    FVector.SizeSquared]

/-- The derived side is `Left` or `Right`, never `None`. -/
theorem GetWallRunSideAndDirection_side (InvSqrt : ℚ → ℚ) (s : AWallRunCharacter)
    (n : FVector) :
    (GetWallRunSideAndDirection InvSqrt s n).1 = EWallRunSide.Left ∨
      (GetWallRunSideAndDirection InvSqrt s n).1 = EWallRunSide.Right := by
  unfold GetWallRunSideAndDirection
  split_ifs
  · exact Or.inl rfl
  · exact Or.inr rfl

/-- The safe normal of a horizontal vector is horizontal. -/
theorem GetSafeNormal_Z (InvSqrt : ℚ → ℚ) (a : FVector) (ha : a.Z = 0) :
    (FVector.GetSafeNormal InvSqrt a).Z = 0 := by
  unfold FVector.GetSafeNormal
  simp only []
  split_ifs
  · exact ha
  · rfl
  · simp [FVector.scale, ha]

/-- What one step can do to the run state: leave the flag, the side and the
plane constraint alone (the direction kept, or freshly derived on the current
side); or start a run on a derived pair; or end not running and unconstrained
with the side and the direction kept. -/
theorem Step_cases (InvSqrt : ℚ → ℚ) (s : AWallRunCharacter) (e : FEvent) :
    ((Step InvSqrt s e).bIsWallRunning = s.bIsWallRunning ∧
        (Step InvSqrt s e).CurrentWallRunSide = s.CurrentWallRunSide ∧
        (Step InvSqrt s e).PlaneConstraintNormal = s.PlaneConstraintNormal ∧
        ((Step InvSqrt s e).CurrentDirection = s.CurrentDirection ∨
          ∃ n, GetWallRunSideAndDirection InvSqrt s n =
            (s.CurrentWallRunSide, (Step InvSqrt s e).CurrentDirection))) ∨
      (∃ n, Step InvSqrt s e =
        StartWallRun s (GetWallRunSideAndDirection InvSqrt s n).1
          (GetWallRunSideAndDirection InvSqrt s n).2) ∨
      ((Step InvSqrt s e).bIsWallRunning = false ∧
        (Step InvSqrt s e).PlaneConstraintNormal = FVector.ZeroVector ∧
        (Step InvSqrt s e).CurrentWallRunSide = s.CurrentWallRunSide ∧
        (Step InvSqrt s e).CurrentDirection = s.CurrentDirection) := by
  cases e with
  | Contact Hit =>
    simp only [Step, OnPlayerCapsuleHit]
    split_ifs
    · exact Or.inl ⟨rfl, rfl, rfl, Or.inl rfl⟩
    · exact Or.inl ⟨rfl, rfl, rfl, Or.inl rfl⟩
    · exact Or.inl ⟨rfl, rfl, rfl, Or.inl rfl⟩
    · exact Or.inl ⟨rfl, rfl, rfl, Or.inl rfl⟩
    · exact Or.inr (Or.inl ⟨Hit.ImpactNormal, rfl⟩)
  | Tick World =>
    simp only [Step, Tick]
    split_ifs with hrun
    · cases hw : World (StartPosition s) (EndPosition s) with
      | none =>
        rw [UpdateWallRun_no_hit InvSqrt World s hw]
        exact Or.inr (Or.inr ⟨rfl, rfl, rfl, rfl⟩)
      | some HitResult =>
        cases hk : AreRequiredKeyDown s s.CurrentWallRunSide with
        | false =>
          rw [UpdateWallRun_keys_up InvSqrt World s hk]
          exact Or.inr (Or.inr ⟨rfl, rfl, rfl, rfl⟩)
        | true =>
          by_cases hside : (GetWallRunSideAndDirection InvSqrt s HitResult.ImpactNormal).1 =
              s.CurrentWallRunSide
          · rw [UpdateWallRun_continues InvSqrt World s HitResult hk hw hside]
            exact Or.inl ⟨rfl, rfl, rfl, Or.inr ⟨HitResult.ImpactNormal, Prod.ext hside rfl⟩⟩
          · rw [UpdateWallRun_side_differs InvSqrt World s HitResult hw hside]
            exact Or.inr (Or.inr ⟨rfl, rfl, rfl, rfl⟩)
    · exact Or.inl ⟨rfl, rfl, rfl, Or.inl rfl⟩
  | Timeout =>
    simp only [Step, FireWallRunTimer]
    split
    · exact Or.inr (Or.inr ⟨rfl, rfl, rfl, rfl⟩)
    · exact Or.inl ⟨rfl, rfl, rfl, Or.inl rfl⟩
  | JumpRequest =>
    simp only [Step, Jump]
    split_ifs with hrun
    · exact Or.inr (Or.inr ⟨rfl, rfl, rfl, rfl⟩)
    · exact Or.inl ⟨rfl, rfl, rfl, Or.inl rfl⟩
  | AxisForward Value => exact Or.inl ⟨rfl, rfl, rfl, Or.inl rfl⟩
  | AxisRight Value => exact Or.inl ⟨rfl, rfl, rfl, Or.inl rfl⟩
  | Moved bFalling Location RightVector Velocity => exact Or.inl ⟨rfl, rfl, rfl, Or.inl rfl⟩

/-- Scaling the zero vector gives the zero vector. -/
theorem scale_ZeroVector (k : ℚ) : FVector.scale k FVector.ZeroVector = FVector.ZeroVector := by
  simp [FVector.scale, FVector.ZeroVector]

/-- With the right vector `(0,1,0)`, a normal without horizontal part derives
the side `Left` and the zero direction. -/
theorem ScenarioA_vertical_normal (z : ℚ) :
    GetWallRunSideAndDirection InvSqrtSample ScenarioA ⟨0, 0, z⟩ =
      (EWallRunSide.Left, FVector.ZeroVector) := by
  norm_num [GetWallRunSideAndDirection, ScenarioA, FVector.DotProduct,
    FVector.CrossProduct, FVector.UpVector, FVector.GetSafeNormal, FVector.SizeSquared,
    FVector.ZeroVector]

/-- With the right vector `(0,1,0)`, a normal `(0,-1,z)` derives the side
`Right` and the direction `(1,0,0)`, whatever `z`. -/
theorem ScenarioA_right_normal (z : ℚ) :
    GetWallRunSideAndDirection InvSqrtSample ScenarioA ⟨0, -1, z⟩ =
      (EWallRunSide.Right, ⟨1, 0, 0⟩) := by
  norm_num [GetWallRunSideAndDirection, ScenarioA, FVector.DotProduct,
    FVector.CrossProduct, FVector.UpVector, FVector.GetSafeNormal, FVector.SizeSquared]

/-- Scenario D: the required keys are down for the side `Left`. -/
theorem ScenarioD_keys : AreRequiredKeyDown ScenarioD EWallRunSide.Left = true := by
  norm_num [AreRequiredKeyDown, ScenarioD, StartWallRun, SetTimer, SetPlaneConstraintNormal,
    BeginCameraTilt, ScenarioA]
  decide

/-- Scenario D, then a tick whose trace hits a surface of normal `(0,0,1)`: the
run goes on with the zero direction and the zero velocity. -/
theorem ScenarioD_degenerate_tick :
    Tick InvSqrtSample (WallWorld ⟨0, 0, 1⟩) ScenarioD =
      { ScenarioD with CurrentDirection := FVector.ZeroVector
                       Velocity := FVector.ZeroVector } := by
  have hG : GetWallRunSideAndDirection InvSqrtSample ScenarioD
      (FHitResult.mk ⟨0, 0, 1⟩).ImpactNormal = (EWallRunSide.Left, FVector.ZeroVector) :=
    (GetWallRunSideAndDirection_congr InvSqrtSample ScenarioD ScenarioA _ rfl).trans
      (ScenarioA_vertical_normal 1)
  have hr : ScenarioD.bIsWallRunning = true := rfl
  have ht : Tick InvSqrtSample (WallWorld ⟨0, 0, 1⟩) ScenarioD =
      UpdateWallRun InvSqrtSample (WallWorld ⟨0, 0, 1⟩) ScenarioD := by
    simp only [Tick, hr, if_true]
  rw [ht, UpdateWallRun_continues InvSqrtSample (WallWorld ⟨0, 0, 1⟩) ScenarioD ⟨⟨0, 0, 1⟩⟩
    ScenarioD_keys rfl (by rw [hG]; rfl), hG, scale_ZeroVector]

/-- The contact of zero normal on `ScenarioLeft` starts a run on the side `Left`
with the zero direction. -/
theorem ScenarioLeft_zero_contact :
    OnPlayerCapsuleHit InvSqrtSample ScenarioLeft ⟨⟨0, 0, 0⟩⟩ =
      StartWallRun ScenarioLeft EWallRunSide.Left FVector.ZeroVector := by
  have hG : GetWallRunSideAndDirection InvSqrtSample ScenarioLeft
      (FHitResult.mk ⟨0, 0, 0⟩).ImpactNormal = (EWallRunSide.Left, FVector.ZeroVector) :=
    (GetWallRunSideAndDirection_congr InvSqrtSample ScenarioLeft ScenarioA _ rfl).trans
      (ScenarioA_vertical_normal 0)
  have hk : AreRequiredKeyDown ScenarioLeft EWallRunSide.Left = true :=
    (AreRequiredKeyDown_congr ScenarioLeft ScenarioD _ rfl rfl).trans ScenarioD_keys
  rw [OnPlayerCapsuleHit_eq_StartWallRun InvSqrtSample ScenarioLeft ⟨⟨0, 0, 0⟩⟩ rfl
    ((IsSurfaceWallRunnable_eq_false_iff _ _).mpr (by norm_num [ScenarioLeft, ScenarioA])) rfl
    (by rw [hG]; exact hk), hG]

/-- Running on the right, a tick whose trace hits a surface of normal `(0,-1,z)`
keeps the run going, whatever `z`. -/
theorem RunningRight_tick (z : ℚ) :
    (Tick InvSqrtSample (WallWorld ⟨0, -1, z⟩) RunningRight).bIsWallRunning = true := by
  have hG : GetWallRunSideAndDirection InvSqrtSample RunningRight
      (FHitResult.mk ⟨0, -1, z⟩).ImpactNormal = (EWallRunSide.Right, ⟨1, 0, 0⟩) :=
    (GetWallRunSideAndDirection_congr InvSqrtSample RunningRight ScenarioA _ rfl).trans
      (ScenarioA_right_normal z)
  have hk : AreRequiredKeyDown RunningRight RunningRight.CurrentWallRunSide = true :=
    (AreRequiredKeyDown_congr RunningRight ScenarioA _ rfl rfl).trans ScenarioA_keys
  have hr : RunningRight.bIsWallRunning = true := rfl
  simp only [Tick, hr, if_true]
  rw [UpdateWallRun_continues InvSqrtSample (WallWorld ⟨0, -1, z⟩) RunningRight ⟨⟨0, -1, z⟩⟩
    hk rfl (by rw [hG]; rfl)]
  rfl

/-- One step keeps this: the plane constraint is zero when not running and the
up vector when running. -/
theorem Step_plane_constraint (InvSqrt : ℚ → ℚ) (s : AWallRunCharacter) (e : FEvent)
    (h : (s.bIsWallRunning = false → s.PlaneConstraintNormal = FVector.ZeroVector) ∧
      (s.bIsWallRunning = true → s.PlaneConstraintNormal = FVector.UpVector)) :
    ((Step InvSqrt s e).bIsWallRunning = false →
        (Step InvSqrt s e).PlaneConstraintNormal = FVector.ZeroVector) ∧
      ((Step InvSqrt s e).bIsWallRunning = true →
        (Step InvSqrt s e).PlaneConstraintNormal = FVector.UpVector) := by
  rcases Step_cases InvSqrt s e with ⟨hr, _, hp, _⟩ | ⟨n, hn⟩ | ⟨hr, hp, _, _⟩
  · rw [hr, hp]
    exact h
  · rw [hn]
    exact ⟨fun hh => absurd (show true = false from hh) (by decide), fun _ => rfl⟩
  · rw [hr, hp]
    exact ⟨fun _ => rfl, fun hh => absurd hh (by decide)⟩

/-- One step never sets the side to `None`: a side other than `None` stays
other than `None`. -/
theorem Step_side_not_None (InvSqrt : ℚ → ℚ) (s : AWallRunCharacter) (e : FEvent)
    (h : s.CurrentWallRunSide ≠ EWallRunSide.None) :
    (Step InvSqrt s e).CurrentWallRunSide ≠ EWallRunSide.None := by
  rcases Step_cases InvSqrt s e with ⟨_, hsd, _, _⟩ | ⟨n, hn⟩ | ⟨_, _, hsd, _⟩
  · rw [hsd]
    exact h
  · rw [hn]
    show (GetWallRunSideAndDirection InvSqrt s n).1 ≠ EWallRunSide.None
    rcases GetWallRunSideAndDirection_side InvSqrt s n with hl | hl <;> rw [hl] <;> decide
  · rw [hsd]
    exact h

/-- The dot product is linear in a scaled first argument. -/
theorem DotProduct_scale (k : ℚ) (a b : FVector) :
    FVector.DotProduct (FVector.scale k a) b = k * FVector.DotProduct a b := by
  simp only [FVector.DotProduct, FVector.scale]
  ring

/-- With a reciprocal square root that is never negative, normalising keeps a
non-negative dot product non-negative. -/
theorem DotProduct_GetSafeNormal_nonneg (InvSqrt : ℚ → ℚ) (hInv : ∀ x, 0 ≤ InvSqrt x)
    (a b : FVector) (h : 0 ≤ FVector.DotProduct a b) :
    0 ≤ FVector.DotProduct (FVector.GetSafeNormal InvSqrt a) b := by
  unfold FVector.GetSafeNormal
  simp only []
  split_ifs
  · exact h
  · simp [FVector.DotProduct, FVector.ZeroVector]
  · rw [DotProduct_scale]
    exact mul_nonneg (hInv _) h

/-- With a reciprocal square root that is never negative, normalising keeps a
dot product that is negative or zero negative or zero. -/
theorem DotProduct_GetSafeNormal_nonpos (InvSqrt : ℚ → ℚ) (hInv : ∀ x, 0 ≤ InvSqrt x)
    (a b : FVector) (h : FVector.DotProduct a b ≤ 0) :
    FVector.DotProduct (FVector.GetSafeNormal InvSqrt a) b ≤ 0 := by
  unfold FVector.GetSafeNormal
  simp only []
  split_ifs
  · exact h
  · simp [FVector.DotProduct, FVector.ZeroVector]
  · rw [DotProduct_scale]
    exact mul_nonpos_of_nonneg_of_nonpos (hInv _) h

/-- The sample reciprocal square root is positive. -/
theorem InvSqrtSample_pos (x : ℚ) : 0 < InvSqrtSample x := by
  unfold InvSqrtSample
  split_ifs <;> norm_num

/-- With a reciprocal square root positive on the positive numbers, the safe
normal of a vector at least as long as the tolerance is a positive multiple of
that vector. -/
theorem GetSafeNormal_pos_multiple (InvSqrt : ℚ → ℚ) (hInv : ∀ x, 0 < x → 0 < InvSqrt x)
    (a : FVector) (ha : 1 / 100000000 ≤ a.SizeSquared) :
    ∃ k : ℚ, 0 < k ∧ FVector.GetSafeNormal InvSqrt a = FVector.scale k a := by
  unfold FVector.GetSafeNormal
  simp only []
  split_ifs with h1 h2
  · exact ⟨1, one_pos, by simp [FVector.scale]⟩
  · exact absurd h2 (not_lt.mpr ha)
  · exact ⟨InvSqrt a.SizeSquared, hInv _ (lt_of_lt_of_le (by norm_num) ha), rfl⟩

/-- With a reciprocal square root positive on the positive numbers, the safe
normal of a vector of Z component 1 has a positive Z component. -/
theorem GetSafeNormal_Z_pos (InvSqrt : ℚ → ℚ) (hInv : ∀ x, 0 < x → 0 < InvSqrt x)
    (a : FVector) (ha : a.Z = 1) : 0 < (FVector.GetSafeNormal InvSqrt a).Z := by
  have hsq : 1 ≤ a.SizeSquared := by
    simp only [FVector.SizeSquared, ha]
    nlinarith [mul_self_nonneg a.X, mul_self_nonneg a.Y]
  unfold FVector.GetSafeNormal
  simp only []
  split_ifs with h1 h2
  · rw [ha]; exact one_pos
  · exact absurd h2 (not_lt.mpr (le_trans (by norm_num) hsq))
  · simp only [FVector.scale, ha, mul_one]
    exact hInv _ (lt_of_lt_of_le one_pos hsq)

/-- The vector that `Jump` normalises last has Z component 1. -/
theorem JumpDirection_Z (InvSqrt : ℚ → ℚ) (s : AWallRunCharacter) :
    (JumpDirection InvSqrt s).Z = 1 := by
  simp only [JumpDirection, FVector.add]
  split_ifs
  · rw [GetSafeNormal_Z InvSqrt _ (by simp [FVector.CrossProduct, FVector.UpVector])]
    simp [FVector.UpVector]
  · rw [GetSafeNormal_Z InvSqrt _ (by simp [FVector.CrossProduct, FVector.UpVector])]
    simp [FVector.UpVector]

/-- As `GetSafeNormal_pos_multiple`, with the length of the result: when the
reciprocal square root is accurate enough at the squared length of the input
that the scaled vector is not itself below the tolerance, neither is the safe
normal. -/
theorem GetSafeNormal_pos_multiple_long (InvSqrt : ℚ → ℚ)
    (hInv : ∀ x, 0 < x → 0 < InvSqrt x) (a : FVector)
    (ha : 1 / 100000000 ≤ a.SizeSquared)
    (hAcc : 1 / 100000000 ≤ InvSqrt a.SizeSquared * InvSqrt a.SizeSquared * a.SizeSquared) :
    ∃ k : ℚ, 0 < k ∧ FVector.GetSafeNormal InvSqrt a = FVector.scale k a ∧
      1 / 100000000 ≤ k * k * a.SizeSquared := by
  unfold FVector.GetSafeNormal
  simp only []
  split_ifs with h1 h2
  · exact ⟨1, one_pos, by simp [FVector.scale], by rw [h1]; norm_num⟩
  · exact absurd h2 (not_lt.mpr ha)
  · exact ⟨InvSqrt a.SizeSquared, hInv _ (lt_of_lt_of_le (by norm_num) ha), rfl, hAcc⟩

/-- The last two steps of the launch direction in `Jump`, on a horizontal vector
`(x,y,0)` at least as long as the tolerance: normalising, adding the up vector
and normalising again gives `(k*x, k*y, z)` with `k` and `z` positive. -/
theorem launch_direction_shape (InvSqrt : ℚ → ℚ) (hInv : ∀ x, 0 < x → 0 < InvSqrt x)
    (x y : ℚ) (hxy : 1 / 100000000 ≤ x * x + y * y) :
    ∃ k z : ℚ, 0 < k ∧ 0 < z ∧
      FVector.GetSafeNormal InvSqrt
        (FVector.add (FVector.GetSafeNormal InvSqrt ⟨x, y, 0⟩) FVector.UpVector) =
        ⟨k * x, k * y, z⟩ := by
  obtain ⟨k2, hk2, hN2⟩ := GetSafeNormal_pos_multiple InvSqrt hInv ⟨x, y, 0⟩
    (by simp only [FVector.SizeSquared]; linarith)
  rw [hN2]
  obtain ⟨k3, hk3, hN3⟩ := GetSafeNormal_pos_multiple InvSqrt hInv
    (FVector.add (FVector.scale k2 ⟨x, y, 0⟩) FVector.UpVector)
    (by
      simp only [FVector.SizeSquared, FVector.add, FVector.scale, FVector.UpVector]
      nlinarith [mul_self_nonneg (k2 * x), mul_self_nonneg (k2 * y)])
  rw [hN3]
  refine ⟨k3 * k2, k3, mul_pos hk3 hk2, hk3, ?_⟩
  simp only [FVector.scale, FVector.add, FVector.UpVector, FVector.mk.injEq]
  exact ⟨by ring, by ring, by ring⟩

/-- The launch that `Jump` records from a running state. -/
theorem Jump_Launches_running (InvSqrt : ℚ → ℚ) (s : AWallRunCharacter)
    (hrun : s.bIsWallRunning = true) :
    (Jump InvSqrt s).Launches = s.Launches ++
      [⟨FVector.scale s.JumpZVelocity
          (FVector.GetSafeNormal InvSqrt (JumpDirection InvSqrt s)), false, true⟩] := by
  simp only [Jump, hrun, if_true]
  rfl

/-- The vector `Jump` normalises last, on the side `Right`. -/
theorem JumpDirection_Right (InvSqrt : ℚ → ℚ) (s : AWallRunCharacter)
    (hs : s.CurrentWallRunSide = EWallRunSide.Right) :
    JumpDirection InvSqrt s =
      FVector.add (FVector.GetSafeNormal InvSqrt
        (FVector.CrossProduct s.CurrentDirection FVector.UpVector)) FVector.UpVector := by
  simp only [JumpDirection, hs, if_true]

/-- The vector `Jump` normalises last, on a side other than `Right`. -/
theorem JumpDirection_not_Right (InvSqrt : ℚ → ℚ) (s : AWallRunCharacter)
    (hs : s.CurrentWallRunSide ≠ EWallRunSide.Right) :
    JumpDirection InvSqrt s =
      FVector.add (FVector.GetSafeNormal InvSqrt
        (FVector.CrossProduct FVector.UpVector s.CurrentDirection)) FVector.UpVector := by
  simp only [JumpDirection, hs, if_false]

/-- The launch direction of `Jump` for a character whose stored side and
direction are the pair derived from the normal `n`: `(k*n.X, k*n.Y, z)` with `k`
and `z` positive, when the horizontal part of `n` is at least as long as the
tolerance and the reciprocal square root is positive and accurate enough there. -/
theorem JumpDirection_of_derived_pair (InvSqrt : ℚ → ℚ) (s : AWallRunCharacter)
    (n : FVector) (hInv : ∀ x, 0 < x → 0 < InvSqrt x)
    (hn : 1 / 100000000 ≤ n.X * n.X + n.Y * n.Y)
    (hAcc : 1 / 100000000 ≤
      InvSqrt (n.X * n.X + n.Y * n.Y) * InvSqrt (n.X * n.X + n.Y * n.Y) *
        (n.X * n.X + n.Y * n.Y))
    (hpair : (s.CurrentWallRunSide, s.CurrentDirection) =
      GetWallRunSideAndDirection InvSqrt s n) :
    ∃ k z : ℚ, 0 < k ∧ 0 < z ∧
      FVector.GetSafeNormal InvSqrt (JumpDirection InvSqrt s) = ⟨k * n.X, k * n.Y, z⟩ := by
  have hqL : (FVector.CrossProduct n FVector.UpVector).SizeSquared =
      n.X * n.X + n.Y * n.Y := by
    simp only [FVector.SizeSquared, FVector.CrossProduct, FVector.UpVector]
    ring
  have hqR : (FVector.CrossProduct FVector.UpVector n).SizeSquared =
      n.X * n.X + n.Y * n.Y := by
    simp only [FVector.SizeSquared, FVector.CrossProduct, FVector.UpVector]
    ring
  unfold GetWallRunSideAndDirection at hpair
  split_ifs at hpair with h
  · obtain ⟨k1, hk1, hN, hlen⟩ := GetSafeNormal_pos_multiple_long InvSqrt hInv
      (FVector.CrossProduct n FVector.UpVector) (by rw [hqL]; exact hn)
      (by rw [hqL]; exact hAcc)
    rw [hN] at hpair
    rw [hqL] at hlen
    have hs := (Prod.mk.inj hpair).1
    have hd := (Prod.mk.inj hpair).2
    have hc : FVector.CrossProduct FVector.UpVector s.CurrentDirection =
        ⟨k1 * n.X, k1 * n.Y, 0⟩ := by
      rw [hd]
      simp only [FVector.CrossProduct, FVector.UpVector, FVector.scale, FVector.mk.injEq]
      exact ⟨by ring, by ring, by ring⟩
    obtain ⟨k, z, hk, hz, hL⟩ := launch_direction_shape InvSqrt hInv (k1 * n.X) (k1 * n.Y)
      (by nlinarith [hlen])
    rw [JumpDirection_not_Right InvSqrt s (by rw [hs]; decide), hc, hL]
    refine ⟨k * k1, z, mul_pos hk hk1, hz, ?_⟩
    simp only [FVector.mk.injEq]
    exact ⟨by ring, by ring, trivial⟩
  · obtain ⟨k1, hk1, hN, hlen⟩ := GetSafeNormal_pos_multiple_long InvSqrt hInv
      (FVector.CrossProduct FVector.UpVector n) (by rw [hqR]; exact hn)
      (by rw [hqR]; exact hAcc)
    rw [hN] at hpair
    rw [hqR] at hlen
    have hs := (Prod.mk.inj hpair).1
    have hd := (Prod.mk.inj hpair).2
    have hc : FVector.CrossProduct s.CurrentDirection FVector.UpVector =
        ⟨k1 * n.X, k1 * n.Y, 0⟩ := by
      rw [hd]
      simp only [FVector.CrossProduct, FVector.UpVector, FVector.scale, FVector.mk.injEq]
      exact ⟨by ring, by ring, by ring⟩
    obtain ⟨k, z, hk, hz, hL⟩ := launch_direction_shape InvSqrt hInv (k1 * n.X) (k1 * n.Y)
      (by nlinarith [hlen])
    rw [JumpDirection_Right InvSqrt s hs, hc, hL]
    refine ⟨k * k1, z, mul_pos hk hk1, hz, ?_⟩
    simp only [FVector.mk.injEq]
    exact ⟨by ring, by ring, trivial⟩

/-! ## Entry: `OnPlayerCapsuleHit` -/

/-- C1: a contact leaves the whole character record unchanged when the
character is already wall-running, or is not falling, or the required keys are
not down for the side derived from the hit normal. -/
theorem OnPlayerCapsuleHit_rejects (InvSqrt : ℚ → ℚ) (s : AWallRunCharacter)
    (Hit : FHitResult)
    (h : s.bIsWallRunning = true ∨ s.IsFalling = false ∨
      AreRequiredKeyDown s (GetWallRunSideAndDirection InvSqrt s Hit.ImpactNormal).1 = false) :
    OnPlayerCapsuleHit InvSqrt s Hit = s := by
  unfold OnPlayerCapsuleHit
  rcases h with h | h | h
  · simp [h]
  · simp [h]
  · simp only [h]
    split_ifs <;> simp_all

/-- C1, worked: Scenario A with the character grounded; the normal is eligible
and the keys are down, yet the contact changes nothing. -/
theorem OnPlayerCapsuleHit_rejects_grounded :
    AreRequiredKeyDown { ScenarioA with IsFalling := false }
        (GetWallRunSideAndDirection InvSqrtSample { ScenarioA with IsFalling := false }
          HitA.ImpactNormal).1 = true ∧
      OnPlayerCapsuleHit InvSqrtSample { ScenarioA with IsFalling := false } HitA =
        { ScenarioA with IsFalling := false } :=
  ⟨by norm_num [AreRequiredKeyDown, GetWallRunSideAndDirection, ScenarioA, HitA,
      FVector.DotProduct]; decide,
    OnPlayerCapsuleHit_rejects InvSqrtSample { ScenarioA with IsFalling := false } HitA
      (Or.inr (Or.inl rfl))⟩

/-- C2: for a contact on a character that is not running, is falling and has
the required keys down, the contact is rejected (the record is unchanged, so
the character is still not running) when the normal's Z exceeds the walkable
floor threshold or is negative, and the run starts when Z lies between 0 and
the threshold, both ends included. -/
theorem OnPlayerCapsuleHit_eligibility (InvSqrt : ℚ → ℚ) (s : AWallRunCharacter)
    (Hit : FHitResult) (hrun : s.bIsWallRunning = false) (hfall : s.IsFalling = true)
    (hkeys : AreRequiredKeyDown s
      (GetWallRunSideAndDirection InvSqrt s Hit.ImpactNormal).1 = true) :
    ((Hit.ImpactNormal.Z > s.WalkableFloorZ ∨ Hit.ImpactNormal.Z < 0) →
        OnPlayerCapsuleHit InvSqrt s Hit = s) ∧
      ((0 ≤ Hit.ImpactNormal.Z ∧ Hit.ImpactNormal.Z ≤ s.WalkableFloorZ) →
        (OnPlayerCapsuleHit InvSqrt s Hit).bIsWallRunning = true) := by
  constructor
  · intro hz
    have hsurf := (IsSurfaceWallRunnable_eq_true_iff s Hit.ImpactNormal).mpr hz
    unfold OnPlayerCapsuleHit
    simp [hrun, hsurf]
  · intro hz
    have hsurf := (IsSurfaceWallRunnable_eq_false_iff s Hit.ImpactNormal).mpr hz
    rw [OnPlayerCapsuleHit_eq_StartWallRun InvSqrt s Hit hrun hsurf hfall hkeys]
    rfl

/-- C2, worked at the threshold: with the walkable floor threshold 0.71 and
the right vector `(0,1,0)`, a contact of normal `(0,-1,0.71)` starts the run
and a contact of normal `(0,-1,0.72)` does not. -/
theorem OnPlayerCapsuleHit_eligibility_threshold :
    (OnPlayerCapsuleHit InvSqrtSample ScenarioA ⟨⟨0, -1, 0.71⟩⟩).bIsWallRunning = true ∧
      OnPlayerCapsuleHit InvSqrtSample ScenarioA ⟨⟨0, -1, 0.72⟩⟩ = ScenarioA := by
  have hk : ∀ z : ℚ, AreRequiredKeyDown ScenarioA
      (GetWallRunSideAndDirection InvSqrtSample ScenarioA
        (FHitResult.mk ⟨0, -1, z⟩).ImpactNormal).1 = true := by
    intro z
    norm_num [AreRequiredKeyDown, GetWallRunSideAndDirection, ScenarioA, FVector.DotProduct]
    decide
  constructor
  · exact (OnPlayerCapsuleHit_eligibility InvSqrtSample ScenarioA ⟨⟨0, -1, 0.71⟩⟩ rfl rfl
      (hk _)).2 (by norm_num [ScenarioA])
  · exact (OnPlayerCapsuleHit_eligibility InvSqrtSample ScenarioA ⟨⟨0, -1, 0.72⟩⟩ rfl rfl
      (hk _)).1 (Or.inl (by norm_num [ScenarioA]))

/-- C3: when the character is not running, the normal is eligible, the
character is falling and the required keys are down for the derived side, the
contact ends with the character running, the stored side and direction equal
to the derived pair, the plane constraint equal to the up vector, one more
tilt-begin request and no more tilt-end request, and the timer armed with
`MaxWallRunTime`. -/
theorem OnPlayerCapsuleHit_enters (InvSqrt : ℚ → ℚ) (s : AWallRunCharacter)
    (Hit : FHitResult) (hrun : s.bIsWallRunning = false)
    (helig : 0 ≤ Hit.ImpactNormal.Z ∧ Hit.ImpactNormal.Z ≤ s.WalkableFloorZ)
    (hfall : s.IsFalling = true)
    (hkeys : AreRequiredKeyDown s
      (GetWallRunSideAndDirection InvSqrt s Hit.ImpactNormal).1 = true) :
    (OnPlayerCapsuleHit InvSqrt s Hit).bIsWallRunning = true ∧
      ((OnPlayerCapsuleHit InvSqrt s Hit).CurrentWallRunSide,
          (OnPlayerCapsuleHit InvSqrt s Hit).CurrentDirection) =
        GetWallRunSideAndDirection InvSqrt s Hit.ImpactNormal ∧
      (OnPlayerCapsuleHit InvSqrt s Hit).PlaneConstraintNormal = ⟨0, 0, 1⟩ ∧
      (OnPlayerCapsuleHit InvSqrt s Hit).TiltBeginRequests = s.TiltBeginRequests + 1 ∧
      (OnPlayerCapsuleHit InvSqrt s Hit).TiltEndRequests = s.TiltEndRequests ∧
      (OnPlayerCapsuleHit InvSqrt s Hit).WallRunTimerHandle = some s.MaxWallRunTime := by
  have hsurf := (IsSurfaceWallRunnable_eq_false_iff s Hit.ImpactNormal).mpr helig
  rw [OnPlayerCapsuleHit_eq_StartWallRun InvSqrt s Hit hrun hsurf hfall hkeys]
  exact ⟨rfl, rfl, rfl, rfl, rfl, rfl⟩

/-- C3, worked (Scenario A): airborne, normal `(0,-1,0)`, right vector
`(0,1,0)`, both axes at 1: the run starts on the side `Right` with the plane
constraint `(0,0,1)`. -/
theorem OnPlayerCapsuleHit_enters_ScenarioA :
    ScenarioA.bIsWallRunning = false ∧ ScenarioA.IsFalling = true ∧
      ScenarioA.ActorRightVector = ⟨0, 1, 0⟩ ∧
      ScenarioA.ForwardAxis = 1 ∧ ScenarioA.RightAxis = 1 ∧
      HitA.ImpactNormal = ⟨0, -1, 0⟩ ∧
      (OnPlayerCapsuleHit InvSqrtSample ScenarioA HitA).bIsWallRunning = true ∧
      (OnPlayerCapsuleHit InvSqrtSample ScenarioA HitA).CurrentWallRunSide =
        EWallRunSide.Right ∧
      (OnPlayerCapsuleHit InvSqrtSample ScenarioA HitA).PlaneConstraintNormal = ⟨0, 0, 1⟩ := by
  have h := OnPlayerCapsuleHit_enters InvSqrtSample ScenarioA HitA rfl
    (by norm_num [ScenarioA, HitA]) rfl (by rw [ScenarioA_side]; exact ScenarioA_keys)
  rw [ScenarioA_side] at h
  refine ⟨rfl, rfl, rfl, rfl, rfl, rfl, h.1, ?_, h.2.2.1⟩
  exact (Prod.mk.inj h.2.1).1

/-! ## Exit: `StopWallRun`, `UpdateWallRun`, `Jump` -/

/-- C4: from every running state each exit trigger ends not running, with the
plane constraint zero and exactly one more tilt-end request: the timeout
callback `StopWallRun`, a tick in which the required keys are not down, a tick
whose line trace hits nothing, a tick whose trace normal derives a side other
than the current one, and `Jump`. -/
theorem exit_postcondition (InvSqrt : ℚ → ℚ) (World : FWorld) (s : AWallRunCharacter)
    (hrun : s.bIsWallRunning = true) :
    Exited s (StopWallRun s) ∧
      (AreRequiredKeyDown s s.CurrentWallRunSide = false →
        Exited s (Tick InvSqrt World s)) ∧
      (World (StartPosition s) (EndPosition s) = none →
        Exited s (Tick InvSqrt World s)) ∧
      (∀ HitResult, World (StartPosition s) (EndPosition s) = some HitResult →
        (GetWallRunSideAndDirection InvSqrt s HitResult.ImpactNormal).1 ≠
          s.CurrentWallRunSide →
        Exited s (Tick InvSqrt World s)) ∧
      Exited s (Jump InvSqrt s) := by
  have hstop : Exited s (StopWallRun s) := ⟨rfl, rfl, rfl⟩
  refine ⟨hstop, ?_, ?_, ?_, ?_⟩
  · intro hk
    simp only [Tick, hrun, if_true, UpdateWallRun_keys_up InvSqrt World s hk]
    exact hstop
  · intro hw
    simp only [Tick, hrun, if_true, UpdateWallRun_no_hit InvSqrt World s hw]
    exact hstop
  · intro HitResult hw hside
    simp only [Tick, hrun, if_true,
      UpdateWallRun_side_differs InvSqrt World s HitResult hw hside]
    exact hstop
  · simp only [Jump, hrun, if_true]
    exact ⟨rfl, rfl, rfl⟩

/-- C4, worked (Scenario B): mid-run, the line trace of the tick hits nothing;
the run exits, the plane constraint is zero, and the tilt-end requests go from
0 to 1. -/
theorem exit_postcondition_ScenarioB :
    RunningRight.bIsWallRunning = true ∧ RunningRight.TiltEndRequests = 0 ∧
      (Tick InvSqrtSample EmptyWorld RunningRight).bIsWallRunning = false ∧
      (Tick InvSqrtSample EmptyWorld RunningRight).PlaneConstraintNormal = ⟨0, 0, 0⟩ ∧
      (Tick InvSqrtSample EmptyWorld RunningRight).TiltEndRequests = 1 := by
  have h := (exit_postcondition InvSqrtSample EmptyWorld RunningRight rfl).2.2.1 rfl
  exact ⟨rfl, rfl, h.1, h.2.1, h.2.2⟩

/-- C5, refuted as stated: in Scenario A the character is not running, yet
`StopWallRun` changes the record, issuing a tilt-end request; and after a run
that the timeout ended, a further `StopWallRun` issues a second tilt-end
request. -/
theorem StopWallRun_not_noop :
    ScenarioA.bIsWallRunning = false ∧
      StopWallRun ScenarioA ≠ ScenarioA ∧
      (StopWallRun ScenarioA).TiltEndRequests = ScenarioA.TiltEndRequests + 1 ∧
      (FireWallRunTimer RunningRight).bIsWallRunning = false ∧
      (FireWallRunTimer RunningRight).TiltEndRequests = 1 ∧
      (StopWallRun (FireWallRunTimer RunningRight)).TiltEndRequests = 2 := by
  refine ⟨rfl, ?_, rfl, rfl, rfl, rfl⟩
  intro h
  have h1 : (StopWallRun ScenarioA).TiltEndRequests = ScenarioA.TiltEndRequests := by rw [h]
  exact absurd h1 (by decide)

/-- C5, amended: on a state that is not running `StopWallRun` changes nothing
but two fields: the plane constraint, set to zero (so unchanged when it was
zero), and the count of tilt-end requests, raised by one on every call. -/
theorem StopWallRun_when_not_running (s : AWallRunCharacter)
    (hrun : s.bIsWallRunning = false) :
    StopWallRun s =
      { s with PlaneConstraintNormal := FVector.ZeroVector
               TiltEndRequests := s.TiltEndRequests + 1 } := by
  cases s
  simp only at hrun
  subst hrun
  rfl

/-- C5, amended, worked: Scenario A, already not running and unconstrained,
differs after `StopWallRun` in the tilt-end count alone. -/
theorem StopWallRun_when_not_running_ScenarioA :
    ScenarioA.bIsWallRunning = false ∧
      StopWallRun ScenarioA = { ScenarioA with TiltEndRequests := 1 } :=
  ⟨rfl, (StopWallRun_when_not_running ScenarioA rfl).trans rfl⟩

/-- C6, refuted as stated: starting from Scenario A, a contact starts a run and
a tick whose trace hits nothing ends it; the state reached is not running, yet
the timeout armed at entry is still pending, and when it then fires
`StopWallRun` runs again, raising the tilt-end requests to 2. -/
theorem WallRunTimer_pending_after_exit :
    Reachable InvSqrtSample
        (Run InvSqrtSample ScenarioA [FEvent.Contact HitA, FEvent.Tick EmptyWorld]) ∧
      (Run InvSqrtSample ScenarioA
        [FEvent.Contact HitA, FEvent.Tick EmptyWorld]).bIsWallRunning = false ∧
      (Run InvSqrtSample ScenarioA
        [FEvent.Contact HitA, FEvent.Tick EmptyWorld]).WallRunTimerHandle = some 2 ∧
      (FireWallRunTimer (Run InvSqrtSample ScenarioA
        [FEvent.Contact HitA, FEvent.Tick EmptyWorld])).TiltEndRequests = 2 := by
  refine ⟨⟨ScenarioA, _, ScenarioA_initial, rfl⟩, ?_, ?_, ?_⟩ <;>
    rw [ScenarioA_run_exit] <;> rfl

/-- C6, amended: no exit cancels the timeout. `StopWallRun`, a tick and `Jump`
leave the timer handle as it was; the handle is released only when the timer
fires and is armed afresh with `MaxWallRunTime` by every `StartWallRun`; so in
every reachable running state the pending timeout has the rate
`MaxWallRunTime`. -/
theorem WallRunTimer_left_pending (InvSqrt : ℚ → ℚ) (World : FWorld)
    (s : AWallRunCharacter) :
    (StopWallRun s).WallRunTimerHandle = s.WallRunTimerHandle ∧
      (Tick InvSqrt World s).WallRunTimerHandle = s.WallRunTimerHandle ∧
      (Jump InvSqrt s).WallRunTimerHandle = s.WallRunTimerHandle ∧
      (∀ side Direction,
        (StartWallRun s side Direction).WallRunTimerHandle = some s.MaxWallRunTime) ∧
      (FireWallRunTimer s).WallRunTimerHandle = none ∧
      (Reachable InvSqrt s → s.bIsWallRunning = true →
        s.WallRunTimerHandle = some s.MaxWallRunTime) := by
  refine ⟨rfl, ?_, ?_, fun _ _ => rfl, ?_, Reachable_timer_pending InvSqrt s⟩
  · simp only [Tick]
    split_ifs
    · cases hw : World (StartPosition s) (EndPosition s) with
      | none => rw [UpdateWallRun_no_hit InvSqrt World s hw]; rfl
      | some HitResult =>
        simp only [UpdateWallRun, hw]
        split_ifs <;> rfl
    · rfl
  · simp only [Jump]
    split_ifs <;> rfl
  · simp only [FireWallRunTimer]
    split
    · rfl
    · assumption

/-- C6, amended, worked: the running state of Scenario A is reachable and its
timer is pending at `MaxWallRunTime`, which is 2. -/
theorem WallRunTimer_left_pending_ScenarioA :
    Reachable InvSqrtSample RunningRight ∧ RunningRight.bIsWallRunning = true ∧
      RunningRight.WallRunTimerHandle = some 2 := by
  have hr : Reachable InvSqrtSample RunningRight :=
    ⟨ScenarioA, [FEvent.Contact HitA], ScenarioA_initial, ScenarioA_contact.symm⟩
  exact ⟨hr, rfl,
    (WallRunTimer_left_pending InvSqrtSample EmptyWorld RunningRight).2.2.2.2.2 hr rfl⟩

/-! ## The running tick -/

/-- C7: from a running state, a tick with the required keys down for the
current side and a trace hit whose normal derives the current side keeps the
character running on the same side, stores the freshly derived direction, and
sets the velocity to `GetMaxSpeed()` times that direction, whatever the velocity
was before. -/
theorem Tick_continues (InvSqrt : ℚ → ℚ) (World : FWorld) (s : AWallRunCharacter)
    (HitResult : FHitResult) (hrun : s.bIsWallRunning = true)
    (hk : AreRequiredKeyDown s s.CurrentWallRunSide = true)
    (hw : World (StartPosition s) (EndPosition s) = some HitResult)
    (hside : (GetWallRunSideAndDirection InvSqrt s HitResult.ImpactNormal).1 =
      s.CurrentWallRunSide) :
    (Tick InvSqrt World s).bIsWallRunning = true ∧
      (Tick InvSqrt World s).CurrentWallRunSide = s.CurrentWallRunSide ∧
      (Tick InvSqrt World s).CurrentDirection =
        (GetWallRunSideAndDirection InvSqrt s HitResult.ImpactNormal).2 ∧
      (Tick InvSqrt World s).Velocity =
        FVector.scale s.MaxSpeed (Tick InvSqrt World s).CurrentDirection ∧
      (∀ v, (Tick InvSqrt World { s with Velocity := v }).Velocity =
        (Tick InvSqrt World s).Velocity) := by
  have h1 : Tick InvSqrt World s = UpdateWallRun InvSqrt World s := by
    simp only [Tick, hrun, if_true]
  have h2 : ∀ v, Tick InvSqrt World { s with Velocity := v } =
      UpdateWallRun InvSqrt World { s with Velocity := v } := by
    intro v
    simp only [Tick, hrun, if_true]
  refine ⟨?_, ?_, ?_, ?_, ?_⟩
  · rw [h1, UpdateWallRun_continues InvSqrt World s HitResult hk hw hside]
    exact hrun
  · rw [h1, UpdateWallRun_continues InvSqrt World s HitResult hk hw hside]
  · rw [h1, UpdateWallRun_continues InvSqrt World s HitResult hk hw hside]
  · rw [h1, UpdateWallRun_continues InvSqrt World s HitResult hk hw hside]
  · intro v
    rw [h1, h2, UpdateWallRun_continues InvSqrt World s HitResult hk hw hside,
      UpdateWallRun_continues InvSqrt World { s with Velocity := v } HitResult hk hw hside]
    rfl

/-- C7, worked: running on the right along a wall of normal `(0,-1,0)` at
maximum speed 600, the tick keeps the run and sets the velocity to
`(600,0,0)`. -/
theorem Tick_continues_RunningRight :
    RunningRight.bIsWallRunning = true ∧ RunningRight.Velocity = ⟨300, 0, -50⟩ ∧
      (Tick InvSqrtSample (WallWorld ⟨0, -1, 0⟩) RunningRight).bIsWallRunning = true ∧
      (Tick InvSqrtSample (WallWorld ⟨0, -1, 0⟩) RunningRight).CurrentDirection = ⟨1, 0, 0⟩ ∧
      (Tick InvSqrtSample (WallWorld ⟨0, -1, 0⟩) RunningRight).Velocity = ⟨600, 0, 0⟩ := by
  have hG : GetWallRunSideAndDirection InvSqrtSample RunningRight
      (FHitResult.mk ⟨0, -1, 0⟩).ImpactNormal = (EWallRunSide.Right, ⟨1, 0, 0⟩) :=
    (GetWallRunSideAndDirection_congr InvSqrtSample RunningRight ScenarioA _ rfl).trans
      ScenarioA_side
  have hk : AreRequiredKeyDown RunningRight RunningRight.CurrentWallRunSide = true :=
    (AreRequiredKeyDown_congr RunningRight ScenarioA _ rfl rfl).trans ScenarioA_keys
  have h := Tick_continues InvSqrtSample (WallWorld ⟨0, -1, 0⟩) RunningRight ⟨⟨0, -1, 0⟩⟩
    rfl hk rfl (by rw [hG]; rfl)
  rw [hG] at h
  refine ⟨rfl, rfl, h.1, h.2.2.1, ?_⟩
  rw [h.2.2.2.1, h.2.2.1]
  norm_num [FVector.scale, RunningRight, StartWallRun, SetTimer, SetPlaneConstraintNormal,
    BeginCameraTilt, ScenarioA]

/-! ## The key check: `AreRequiredKeyDown` -/

/-- C8, refuted as stated: with the forward axis exactly 0.001, the right axis
1 and the side `Right`, `AreRequiredKeyDown` returns true although the forward
axis is not strictly greater than 0.001. -/
theorem AreRequiredKeyDown_at_epsilon :
    ¬ (AreRequiredKeyDown AtEpsilon EWallRunSide.Right = true ↔
      (AtEpsilon.ForwardAxis > 0.001 ∧
        ¬ (EWallRunSide.Right = EWallRunSide.Left ∧ AtEpsilon.RightAxis > -0.001) ∧
        ¬ (EWallRunSide.Right = EWallRunSide.Right ∧ AtEpsilon.RightAxis < 0.001))) := by
  intro h
  have hk : AreRequiredKeyDown AtEpsilon EWallRunSide.Right = true := by
    norm_num [AreRequiredKeyDown, AtEpsilon, ScenarioA]
    decide
  have hf := (h.mp hk).1
  norm_num [AtEpsilon] at hf

/-- C8, amended: `AreRequiredKeyDown` returns true if and only if the forward
axis is at least 0.001, and it is not the case that the side is `Left` with the
right axis above -0.001, and it is not the case that the side is `Right` with
the right axis below 0.001. -/
theorem AreRequiredKeyDown_iff (s : AWallRunCharacter) (side : EWallRunSide) :
    AreRequiredKeyDown s side = true ↔
      (s.ForwardAxis ≥ 0.001 ∧
        ¬ (side = EWallRunSide.Left ∧ s.RightAxis > -0.001) ∧
        ¬ (side = EWallRunSide.Right ∧ s.RightAxis < 0.001)) := by
  unfold AreRequiredKeyDown
  split_ifs with h1 h2 h3
  · simp only [Bool.false_eq_true, false_iff, not_and]
    intro h
    exact absurd h1 (not_lt.mpr h)
  · simp only [Bool.false_eq_true, false_iff]
    intro h
    exact h.2.1 ⟨h2.2, h2.1⟩
  · simp only [Bool.false_eq_true, false_iff]
    intro h
    exact h.2.2 ⟨h3.2, h3.1⟩
  · simp only [true_iff]
    exact ⟨not_lt.mp h1, fun h => h2 ⟨h.2, h.1⟩, fun h => h3 ⟨h.2, h.1⟩⟩

/-- C9: whatever the side and the right axis, `AreRequiredKeyDown` returns
false when the forward axis is zero or negative. -/
theorem AreRequiredKeyDown_forward_nonpos (s : AWallRunCharacter) (side : EWallRunSide)
    (h : s.ForwardAxis ≤ 0) : AreRequiredKeyDown s side = false := by
  unfold AreRequiredKeyDown
  rw [if_pos (lt_of_le_of_lt h (by norm_num))]

/-- C9, worked: Scenario A with the forward axis at 0, steering right on the
side `Right`. -/
theorem AreRequiredKeyDown_forward_released :
    ForwardReleased.ForwardAxis ≤ 0 ∧ ForwardReleased.RightAxis = 1 ∧
      AreRequiredKeyDown ForwardReleased EWallRunSide.Right = false :=
  ⟨le_of_eq rfl, rfl,
    AreRequiredKeyDown_forward_nonpos ForwardReleased EWallRunSide.Right (le_of_eq rfl)⟩

/-! ## The wall jump: `Jump` -/

/-- C10: from a running state `Jump` calls `LaunchCharacter` once, with the
velocity `JumpZVelocity * normalize(h + up)`, where `h` is
`normalize(cross(CurrentDirection, up))` on the side `Right` and
`normalize(cross(up, CurrentDirection))` otherwise, and ends not running with
the plane constraint zero; from a state that is not running `Jump` only sets
the base class's jump flag. -/
theorem Jump_launches (InvSqrt : ℚ → ℚ) (s : AWallRunCharacter) :
    (s.bIsWallRunning = true →
        (Jump InvSqrt s).Launches = s.Launches ++
          [⟨FVector.scale s.JumpZVelocity
              (FVector.GetSafeNormal InvSqrt
                (FVector.add
                  (if s.CurrentWallRunSide = EWallRunSide.Right then
                    FVector.GetSafeNormal InvSqrt
                      (FVector.CrossProduct s.CurrentDirection FVector.UpVector)
                  else
                    FVector.GetSafeNormal InvSqrt
                      (FVector.CrossProduct FVector.UpVector s.CurrentDirection))
                  FVector.UpVector)),
            false, true⟩] ∧
        (Jump InvSqrt s).bIsWallRunning = false ∧
        (Jump InvSqrt s).PlaneConstraintNormal = FVector.ZeroVector) ∧
      (s.bIsWallRunning = false → Jump InvSqrt s = { s with bPressedJump := true }) := by
  constructor
  · intro hrun
    simp only [Jump, hrun, if_true]
    exact ⟨rfl, rfl, rfl⟩
  · intro hrun
    have hj : Jump InvSqrt s = SuperJump s := by
      unfold Jump
      rw [if_neg (by rw [hrun]; decide)]
    rw [hj]
    rfl

/-- C10, worked (Scenario D): running on the side `Left` along `(1,0,0)` with
jump impulse 420, the launch is `420 * normalize((0,1,0) + (0,0,1))` and the
run has ended. -/
theorem Jump_launches_ScenarioD :
    ScenarioD.bIsWallRunning = true ∧ ScenarioD.CurrentWallRunSide = EWallRunSide.Left ∧
      ScenarioD.CurrentDirection = ⟨1, 0, 0⟩ ∧
      (Jump InvSqrtSample ScenarioD).Launches =
        [⟨FVector.scale 420
            (FVector.GetSafeNormal InvSqrtSample (FVector.add ⟨0, 1, 0⟩ ⟨0, 0, 1⟩)),
          false, true⟩] ∧
      (Jump InvSqrtSample ScenarioD).bIsWallRunning = false := by
  obtain ⟨h1, h2, _⟩ := (Jump_launches InvSqrtSample ScenarioD).1 rfl
  refine ⟨rfl, rfl, rfl, ?_, h2⟩
  rw [h1]
  have hside : ¬ ScenarioD.CurrentWallRunSide = EWallRunSide.Right := by decide
  have hdir : ScenarioD.CurrentDirection = ⟨1, 0, 0⟩ := rfl
  rw [if_neg hside, hdir, ScenarioD_cross]
  rfl

/-! ## Degenerate and ineligible trace normals in the tick -/

/-- C11, refuted as stated: running on the left (Scenario D), a tick whose trace
normal is the purely vertical `(0,0,1)` derives a zero-length direction, yet the
run goes on and the velocity `(300,0,-50)` is overwritten with the zero vector,
whereas a failed trace ends the run; and the contact of zero normal starts a run
with the zero direction. -/
theorem degenerate_normal_not_rejected :
    ScenarioD.bIsWallRunning = true ∧ ScenarioD.Velocity = ⟨300, 0, -50⟩ ∧
      (GetWallRunSideAndDirection InvSqrtSample ScenarioD ⟨0, 0, 1⟩).2 = ⟨0, 0, 0⟩ ∧
      (Tick InvSqrtSample (WallWorld ⟨0, 0, 1⟩) ScenarioD).bIsWallRunning = true ∧
      (Tick InvSqrtSample (WallWorld ⟨0, 0, 1⟩) ScenarioD).Velocity = ⟨0, 0, 0⟩ ∧
      (Tick InvSqrtSample EmptyWorld ScenarioD).bIsWallRunning = false ∧
      ScenarioLeft.bIsWallRunning = false ∧
      (OnPlayerCapsuleHit InvSqrtSample ScenarioLeft ⟨⟨0, 0, 0⟩⟩).bIsWallRunning = true ∧
      (OnPlayerCapsuleHit InvSqrtSample ScenarioLeft ⟨⟨0, 0, 0⟩⟩).CurrentDirection =
        ⟨0, 0, 0⟩ := by
  have hG : GetWallRunSideAndDirection InvSqrtSample ScenarioD ⟨0, 0, 1⟩ =
      (EWallRunSide.Left, FVector.ZeroVector) :=
    (GetWallRunSideAndDirection_congr InvSqrtSample ScenarioD ScenarioA _ rfl).trans
      (ScenarioA_vertical_normal 1)
  have hr : ScenarioD.bIsWallRunning = true := rfl
  have hexit : Tick InvSqrtSample EmptyWorld ScenarioD = StopWallRun ScenarioD := by
    simp only [Tick, hr, if_true]
    exact UpdateWallRun_no_hit _ _ _ rfl
  refine ⟨rfl, rfl, ?_, ?_, ?_, ?_, rfl, ?_, ?_⟩
  · rw [hG]; rfl
  · rw [ScenarioD_degenerate_tick]; rfl
  · rw [ScenarioD_degenerate_tick]; rfl
  · rw [hexit]; rfl
  · rw [ScenarioLeft_zero_contact]; rfl
  · rw [ScenarioLeft_zero_contact]; rfl

/-- C11, amended: nothing guards a zero-length direction. From a running state,
a tick with the required keys down whose trace normal derives the current side
and the zero direction keeps the run going, stores the zero direction and sets
the velocity to the zero vector; and a contact that passes the four checks of
`OnPlayerCapsuleHit` with a zero derived direction starts a run with the zero
direction. -/
theorem degenerate_direction_kept (InvSqrt : ℚ → ℚ) (World : FWorld)
    (s t : AWallRunCharacter) (HitResult Hit : FHitResult) :
    (s.bIsWallRunning = true →
        AreRequiredKeyDown s s.CurrentWallRunSide = true →
        World (StartPosition s) (EndPosition s) = some HitResult →
        GetWallRunSideAndDirection InvSqrt s HitResult.ImpactNormal =
          (s.CurrentWallRunSide, FVector.ZeroVector) →
        (Tick InvSqrt World s).bIsWallRunning = true ∧
          (Tick InvSqrt World s).CurrentDirection = FVector.ZeroVector ∧
          (Tick InvSqrt World s).Velocity = FVector.ZeroVector) ∧
      (t.bIsWallRunning = false →
        (0 ≤ Hit.ImpactNormal.Z ∧ Hit.ImpactNormal.Z ≤ t.WalkableFloorZ) →
        t.IsFalling = true →
        AreRequiredKeyDown t (GetWallRunSideAndDirection InvSqrt t Hit.ImpactNormal).1 = true →
        (GetWallRunSideAndDirection InvSqrt t Hit.ImpactNormal).2 = FVector.ZeroVector →
        (OnPlayerCapsuleHit InvSqrt t Hit).bIsWallRunning = true ∧
          (OnPlayerCapsuleHit InvSqrt t Hit).CurrentDirection = FVector.ZeroVector) := by
  constructor
  · intro hrun hk hw hG
    have ht : Tick InvSqrt World s = UpdateWallRun InvSqrt World s := by
      simp only [Tick, hrun, if_true]
    rw [ht, UpdateWallRun_continues InvSqrt World s HitResult hk hw (by rw [hG]), hG,
      scale_ZeroVector]
    exact ⟨hrun, rfl, rfl⟩
  · intro hrun helig hfall hk hG
    have hsurf := (IsSurfaceWallRunnable_eq_false_iff t Hit.ImpactNormal).mpr helig
    rw [OnPlayerCapsuleHit_eq_StartWallRun InvSqrt t Hit hrun hsurf hfall hk, hG]
    exact ⟨rfl, rfl⟩

/-- C11, amended, worked: Scenario D with the trace normal `(0,0,1)`. -/
theorem degenerate_direction_kept_ScenarioD :
    ScenarioD.bIsWallRunning = true ∧
      (Tick InvSqrtSample (WallWorld ⟨0, 0, 1⟩) ScenarioD).bIsWallRunning = true ∧
      (Tick InvSqrtSample (WallWorld ⟨0, 0, 1⟩) ScenarioD).CurrentDirection = ⟨0, 0, 0⟩ ∧
      (Tick InvSqrtSample (WallWorld ⟨0, 0, 1⟩) ScenarioD).Velocity = ⟨0, 0, 0⟩ :=
  ⟨rfl, (degenerate_direction_kept InvSqrtSample (WallWorld ⟨0, 0, 1⟩) ScenarioD ScenarioLeft
    ⟨⟨0, 0, 1⟩⟩ ⟨⟨0, 0, 0⟩⟩).1 rfl ScenarioD_keys rfl
    ((GetWallRunSideAndDirection_congr InvSqrtSample ScenarioD ScenarioA _ rfl).trans
      (ScenarioA_vertical_normal 1))⟩

/-- C12, refuted as stated: running on the right with the walkable floor
threshold 0.71, a tick whose trace normal is the overhang `(0,-1,-1/2)` keeps
the run going, and so does a tick whose trace normal is `(0,-1,0.9)`, above the
threshold. -/
theorem ineligible_normal_not_rejected :
    RunningRight.bIsWallRunning = true ∧ RunningRight.WalkableFloorZ = 0.71 ∧
      (Tick InvSqrtSample (WallWorld ⟨0, -1, -1 / 2⟩) RunningRight).bIsWallRunning = true ∧
      (Tick InvSqrtSample (WallWorld ⟨0, -1, 0.9⟩) RunningRight).bIsWallRunning = true :=
  ⟨rfl, rfl, RunningRight_tick _, RunningRight_tick _⟩

/-- C12, amended: the tick does not look at the eligibility of the trace
normal. From a running state a tick ends the run exactly when the required keys
are not down, or the trace hits nothing, or the trace normal derives a side
other than the current one. -/
theorem Tick_exits_iff (InvSqrt : ℚ → ℚ) (World : FWorld) (s : AWallRunCharacter)
    (hrun : s.bIsWallRunning = true) :
    (Tick InvSqrt World s).bIsWallRunning = false ↔
      (AreRequiredKeyDown s s.CurrentWallRunSide = false ∨
        World (StartPosition s) (EndPosition s) = none ∨
        ∃ HitResult, World (StartPosition s) (EndPosition s) = some HitResult ∧
          (GetWallRunSideAndDirection InvSqrt s HitResult.ImpactNormal).1 ≠
            s.CurrentWallRunSide) := by
  have ht : Tick InvSqrt World s = UpdateWallRun InvSqrt World s := by
    simp only [Tick, hrun, if_true]
  rw [ht]
  cases hk : AreRequiredKeyDown s s.CurrentWallRunSide with
  | false =>
    rw [UpdateWallRun_keys_up InvSqrt World s hk]
    exact ⟨fun _ => Or.inl rfl, fun _ => rfl⟩
  | true =>
    cases hw : World (StartPosition s) (EndPosition s) with
    | none =>
      rw [UpdateWallRun_no_hit InvSqrt World s hw]
      exact ⟨fun _ => Or.inr (Or.inl rfl), fun _ => rfl⟩
    | some HitResult =>
      by_cases hside : (GetWallRunSideAndDirection InvSqrt s HitResult.ImpactNormal).1 =
          s.CurrentWallRunSide
      · rw [UpdateWallRun_continues InvSqrt World s HitResult hk hw hside]
        constructor
        · intro h
          have h2 : s.bIsWallRunning = false := h
          rw [hrun] at h2
          exact absurd h2 (by decide)
        · intro h
          rcases h with h | h | ⟨H, hH, hne⟩
          · exact absurd h (by decide)
          · exact absurd h (by simp)
          · have hE : HitResult = H := Option.some.inj hH
            subst hE
            exact absurd hside hne
      · rw [UpdateWallRun_side_differs InvSqrt World s HitResult hw hside]
        exact ⟨fun _ => Or.inr (Or.inr ⟨HitResult, rfl, hside⟩), fun _ => rfl⟩

/-- C12, amended, worked: running on the right, the tick whose trace hits
nothing ends the run. -/
theorem Tick_exits_iff_RunningRight :
    RunningRight.bIsWallRunning = true ∧
      (Tick InvSqrtSample EmptyWorld RunningRight).bIsWallRunning = false :=
  ⟨rfl, (Tick_exits_iff InvSqrtSample EmptyWorld RunningRight rfl).mpr (Or.inr (Or.inl rfl))⟩

/-! ## The side test of `GetWallRunSideAndDirection` -/

/-- C13, refuted as stated: with the right vector `(0,1,0)` the normal `(1,0,0)`
and the normal with its horizontal part negated both derive the side `Left`;
and with the tilted right vector `(0,3/5,4/5)` so do the normal `(0,1,1)` and
its horizontal negation. -/
theorem side_not_flipped :
    (GetWallRunSideAndDirection InvSqrtSample ScenarioA ⟨1, 0, 0⟩).1 = EWallRunSide.Left ∧
      (GetWallRunSideAndDirection InvSqrtSample ScenarioA
        (FVector.NegateHorizontal ⟨1, 0, 0⟩)).1 = EWallRunSide.Left ∧
      (GetWallRunSideAndDirection InvSqrtSample Tilted ⟨0, 1, 1⟩).1 = EWallRunSide.Left ∧
      (GetWallRunSideAndDirection InvSqrtSample Tilted
        (FVector.NegateHorizontal ⟨0, 1, 1⟩)).1 = EWallRunSide.Left := by
  refine ⟨?_, ?_, ?_, ?_⟩ <;>
    norm_num [GetWallRunSideAndDirection, ScenarioA, Tilted, FVector.DotProduct,
      FVector.NegateHorizontal]

/-- C13, amended: negating the horizontal part of the normal flips the derived
side whenever the horizontal part of the dot product with the right vector
exceeds, in absolute value, the vertical part by at least 0.001 (for a
horizontal right vector: whenever the dot product is at least 0.001 in absolute
value); for a horizontal right vector and a dot product below 0.001 in absolute
value both normals derive `Left`. -/
theorem side_flips_outside_band (InvSqrt : ℚ → ℚ) (s : AWallRunCharacter) (n : FVector) :
    (|n.X * s.ActorRightVector.X + n.Y * s.ActorRightVector.Y| ≥
          |n.Z * s.ActorRightVector.Z| + 0.001 →
        ((GetWallRunSideAndDirection InvSqrt s n).1 = EWallRunSide.Left →
            (GetWallRunSideAndDirection InvSqrt s (FVector.NegateHorizontal n)).1 =
              EWallRunSide.Right) ∧
          ((GetWallRunSideAndDirection InvSqrt s n).1 = EWallRunSide.Right →
            (GetWallRunSideAndDirection InvSqrt s (FVector.NegateHorizontal n)).1 =
              EWallRunSide.Left)) ∧
      (s.ActorRightVector.Z = 0 → |FVector.DotProduct n s.ActorRightVector| < 0.001 →
        (GetWallRunSideAndDirection InvSqrt s n).1 = EWallRunSide.Left ∧
          (GetWallRunSideAndDirection InvSqrt s (FVector.NegateHorizontal n)).1 =
            EWallRunSide.Left) := by
  constructor
  · intro h
    have hV1 := le_abs_self (n.Z * s.ActorRightVector.Z)
    have hV2 := neg_abs_le (n.Z * s.ActorRightVector.Z)
    simp only [GetWallRunSideAndDirection, FVector.DotProduct, FVector.NegateHorizontal]
    rcases abs_cases (n.X * s.ActorRightVector.X + n.Y * s.ActorRightVector.Y) with
      ⟨hA, _⟩ | ⟨hA, _⟩
    · rw [hA] at h
      constructor
      · intro _
        rw [if_neg (by norm_num at h ⊢; linarith)]
      · intro hR
        split_ifs at hR with h1
        exact absurd h1 (by norm_num at h ⊢; linarith)
    · rw [hA] at h
      constructor
      · intro hL
        split_ifs at hL with h1
        exact absurd h1 (by norm_num at h ⊢; linarith)
      · intro _
        rw [if_pos (by norm_num at h ⊢; linarith)]
  · intro hz hb
    simp only [GetWallRunSideAndDirection, FVector.DotProduct, FVector.NegateHorizontal, hz,
      mul_zero, add_zero] at hb ⊢
    rw [abs_lt] at hb
    constructor
    · rw [if_pos (by norm_num at hb ⊢; linarith)]
    · rw [if_pos (by norm_num at hb ⊢; linarith)]

/-- C13, amended, worked: with the right vector `(0,1,0)` the normal `(0,-1,0)`
derives `Right` and its horizontal negation derives `Left`. -/
theorem side_flips_outside_band_ScenarioA :
    (GetWallRunSideAndDirection InvSqrtSample ScenarioA ⟨0, -1, 0⟩).1 = EWallRunSide.Right ∧
      (GetWallRunSideAndDirection InvSqrtSample ScenarioA
        (FVector.NegateHorizontal ⟨0, -1, 0⟩)).1 = EWallRunSide.Left := by
  have hR : (GetWallRunSideAndDirection InvSqrtSample ScenarioA ⟨0, -1, 0⟩).1 =
      EWallRunSide.Right := by rw [ScenarioA_right_normal]
  exact ⟨hR, ((side_flips_outside_band InvSqrtSample ScenarioA ⟨0, -1, 0⟩).1
    (by norm_num [ScenarioA])).2 hR⟩

/-! ## Invariants of the reachable states -/

/-- C15: in every reachable state the plane constraint is the zero vector when
the character is not running and the up vector when it is running. -/
theorem Reachable_plane_constraint (InvSqrt : ℚ → ℚ) (s : AWallRunCharacter)
    (hs : Reachable InvSqrt s) :
    (s.bIsWallRunning = false → s.PlaneConstraintNormal = ⟨0, 0, 0⟩) ∧
      (s.bIsWallRunning = true → s.PlaneConstraintNormal = ⟨0, 0, 1⟩) :=
  Reachable.induction InvSqrt
    (fun t => (t.bIsWallRunning = false → t.PlaneConstraintNormal = FVector.ZeroVector) ∧
      (t.bIsWallRunning = true → t.PlaneConstraintNormal = FVector.UpVector))
    (fun t ht => ⟨fun _ => ht.2.2.1, fun hr => absurd (ht.1.symm.trans hr) (by decide)⟩)
    (fun t e ht => Step_plane_constraint InvSqrt t e ht) s hs

/-- C15, worked: Scenario A after the contact and a tick whose trace hits
nothing is reachable and not running, and its plane constraint is zero. -/
theorem Reachable_plane_constraint_ScenarioA :
    Reachable InvSqrtSample
        (Run InvSqrtSample ScenarioA [FEvent.Contact HitA, FEvent.Tick EmptyWorld]) ∧
      (Run InvSqrtSample ScenarioA
        [FEvent.Contact HitA, FEvent.Tick EmptyWorld]).bIsWallRunning = false ∧
      (Run InvSqrtSample ScenarioA
        [FEvent.Contact HitA, FEvent.Tick EmptyWorld]).PlaneConstraintNormal = ⟨0, 0, 0⟩ := by
  have hr : Reachable InvSqrtSample
      (Run InvSqrtSample ScenarioA [FEvent.Contact HitA, FEvent.Tick EmptyWorld]) :=
    ⟨ScenarioA, _, ScenarioA_initial, rfl⟩
  have hf : (Run InvSqrtSample ScenarioA
      [FEvent.Contact HitA, FEvent.Tick EmptyWorld]).bIsWallRunning = false := by
    rw [ScenarioA_run_exit]; rfl
  exact ⟨hr, hf, (Reachable_plane_constraint InvSqrtSample _ hr).1 hf⟩

/-- C16, refuted as stated: Scenario A after the contact and a tick whose trace
hits nothing is reachable and not running, yet its stored side is `Right`, not
`None`; `StopWallRun` left the side of the run in place. -/
theorem side_not_None_after_exit :
    Reachable InvSqrtSample
        (Run InvSqrtSample ScenarioA [FEvent.Contact HitA, FEvent.Tick EmptyWorld]) ∧
      (Run InvSqrtSample ScenarioA
        [FEvent.Contact HitA, FEvent.Tick EmptyWorld]).bIsWallRunning = false ∧
      (Run InvSqrtSample ScenarioA
        [FEvent.Contact HitA, FEvent.Tick EmptyWorld]).CurrentWallRunSide =
          EWallRunSide.Right ∧
      (StopWallRun RunningRight).CurrentWallRunSide ≠ EWallRunSide.None := by
  refine ⟨⟨ScenarioA, _, ScenarioA_initial, rfl⟩, ?_, ?_, by decide⟩ <;>
    rw [ScenarioA_run_exit] <;> rfl

/-- C16, amended: no exit resets the stored side. `StopWallRun`, the timer
firing, `Jump` and a tick leave `CurrentWallRunSide` as it was, and no event
sets a side other than `None` back to `None`; so after a run has ended the
stored side is still that run's side. -/
theorem side_kept (InvSqrt : ℚ → ℚ) (World : FWorld) (s : AWallRunCharacter) :
    (StopWallRun s).CurrentWallRunSide = s.CurrentWallRunSide ∧
      (FireWallRunTimer s).CurrentWallRunSide = s.CurrentWallRunSide ∧
      (Jump InvSqrt s).CurrentWallRunSide = s.CurrentWallRunSide ∧
      (Tick InvSqrt World s).CurrentWallRunSide = s.CurrentWallRunSide ∧
      (∀ e, s.CurrentWallRunSide ≠ EWallRunSide.None →
        (Step InvSqrt s e).CurrentWallRunSide ≠ EWallRunSide.None) := by
  refine ⟨rfl, ?_, ?_, ?_, fun e h => Step_side_not_None InvSqrt s e h⟩
  · simp only [FireWallRunTimer]
    split <;> rfl
  · simp only [Jump]
    split_ifs <;> rfl
  · simp only [Tick]
    split_ifs
    · cases hw : World (StartPosition s) (EndPosition s) with
      | none => rw [UpdateWallRun_no_hit InvSqrt World s hw]; rfl
      | some HitResult =>
        simp only [UpdateWallRun, hw]
        split_ifs <;> rfl
    · rfl

/-- C16, amended, worked: running on the right, the side is `Right`, and after
the timer fires it is still not `None`. -/
theorem side_kept_RunningRight :
    RunningRight.CurrentWallRunSide = EWallRunSide.Right ∧
      (Step InvSqrtSample RunningRight FEvent.Timeout).bIsWallRunning = false ∧
      (Step InvSqrtSample RunningRight FEvent.Timeout).CurrentWallRunSide ≠
        EWallRunSide.None :=
  ⟨rfl, rfl, (side_kept InvSqrtSample EmptyWorld RunningRight).2.2.2.2 FEvent.Timeout
    (by decide)⟩

/-! ## The geometry of the derived direction and of the wall jump -/

/-- C17, refuted as stated: with the right vector `(0,1,0)`, so the forward
vector `(1,0,0)`, the unit normal `BandNormal`, whose dot product with the right
vector lies between -0.001 and 0, derives the side `Left` and a direction whose
dot product with the forward vector is negative. -/
theorem direction_backward_in_band :
    ScenarioA.ActorRightVector = ⟨0, 1, 0⟩ ∧
      FVector.CrossProduct ScenarioA.ActorRightVector FVector.UpVector = ⟨1, 0, 0⟩ ∧
      (GetWallRunSideAndDirection InvSqrtSample ScenarioA BandNormal).1 = EWallRunSide.Left ∧
      FVector.DotProduct (GetWallRunSideAndDirection InvSqrtSample ScenarioA BandNormal).2
        (FVector.CrossProduct ScenarioA.ActorRightVector FVector.UpVector) < 0 := by
  have hG : GetWallRunSideAndDirection InvSqrtSample ScenarioA BandNormal =
      (EWallRunSide.Left, ⟨-4000 / 4000001, -(3999999 / 4000001), 0⟩) := by
    norm_num [GetWallRunSideAndDirection, ScenarioA, BandNormal, FVector.DotProduct,
      FVector.CrossProduct, FVector.UpVector, FVector.GetSafeNormal, FVector.SizeSquared]
  refine ⟨rfl, ?_, ?_, ?_⟩
  · norm_num [ScenarioA, FVector.CrossProduct, FVector.UpVector]
  · rw [hG]
  · rw [hG]
    norm_num [ScenarioA, FVector.DotProduct, FVector.CrossProduct, FVector.UpVector]

/-- C17, amended: for a horizontal right vector `r`, the forward vector
`cross(r, up)` and a reciprocal square root that is never negative, the derived
direction has a non-negative dot product with the forward vector on the
`Right` branch, and on the `Left` branch whenever the normal's dot product with
`r` is not negative; on the `Left` branch with a negative dot product (the band
between -0.001 and 0) the direction's dot product with the forward vector is
negative or zero. -/
theorem direction_forward (InvSqrt : ℚ → ℚ) (s : AWallRunCharacter) (n : FVector)
    (hInv : ∀ x, 0 ≤ InvSqrt x) (hr : s.ActorRightVector.Z = 0) :
    ((GetWallRunSideAndDirection InvSqrt s n).1 = EWallRunSide.Right →
        0 ≤ FVector.DotProduct (GetWallRunSideAndDirection InvSqrt s n).2
          (FVector.CrossProduct s.ActorRightVector FVector.UpVector)) ∧
      ((GetWallRunSideAndDirection InvSqrt s n).1 = EWallRunSide.Left →
        0 ≤ FVector.DotProduct n s.ActorRightVector →
        0 ≤ FVector.DotProduct (GetWallRunSideAndDirection InvSqrt s n).2
          (FVector.CrossProduct s.ActorRightVector FVector.UpVector)) ∧
      ((GetWallRunSideAndDirection InvSqrt s n).1 = EWallRunSide.Left →
        FVector.DotProduct n s.ActorRightVector < 0 →
        FVector.DotProduct (GetWallRunSideAndDirection InvSqrt s n).2
          (FVector.CrossProduct s.ActorRightVector FVector.UpVector) ≤ 0) := by
  have hL : FVector.DotProduct (FVector.CrossProduct n FVector.UpVector)
      (FVector.CrossProduct s.ActorRightVector FVector.UpVector) =
      FVector.DotProduct n s.ActorRightVector := by
    simp only [FVector.DotProduct, FVector.CrossProduct, FVector.UpVector, hr]
    ring
  have hR : FVector.DotProduct (FVector.CrossProduct FVector.UpVector n)
      (FVector.CrossProduct s.ActorRightVector FVector.UpVector) =
      -FVector.DotProduct n s.ActorRightVector := by
    simp only [FVector.DotProduct, FVector.CrossProduct, FVector.UpVector, hr]
    ring
  unfold GetWallRunSideAndDirection
  split_ifs with h
  · refine ⟨fun hh => absurd hh (by decide), fun _ h0 => ?_, fun _ h0 => ?_⟩
    · exact DotProduct_GetSafeNormal_nonneg InvSqrt hInv _ _ (by rw [hL]; exact h0)
    · exact DotProduct_GetSafeNormal_nonpos InvSqrt hInv _ _ (by rw [hL]; exact le_of_lt h0)
  · refine ⟨fun _ => ?_, fun hh => absurd hh (by decide), fun hh => absurd hh (by decide)⟩
    refine DotProduct_GetSafeNormal_nonneg InvSqrt hInv _ _ ?_
    rw [hR]
    norm_num at h
    linarith

/-- C17, amended, worked: with the right vector `(0,1,0)` the normal `(0,-1,0)`
derives `Right`, and the direction's dot product with the forward vector is not
negative. -/
theorem direction_forward_ScenarioA :
    ScenarioA.ActorRightVector.Z = 0 ∧
      (GetWallRunSideAndDirection InvSqrtSample ScenarioA ⟨0, -1, 0⟩).1 = EWallRunSide.Right ∧
      0 ≤ FVector.DotProduct (GetWallRunSideAndDirection InvSqrtSample ScenarioA ⟨0, -1, 0⟩).2
        (FVector.CrossProduct ScenarioA.ActorRightVector FVector.UpVector) := by
  have hR : (GetWallRunSideAndDirection InvSqrtSample ScenarioA ⟨0, -1, 0⟩).1 =
      EWallRunSide.Right := by rw [ScenarioA_right_normal]
  exact ⟨rfl, hR, (direction_forward InvSqrtSample ScenarioA ⟨0, -1, 0⟩
    (fun x => le_of_lt (InvSqrtSample_pos x)) rfl).1 hR⟩

/-- C18, the code at the failing input: with the walkable floor threshold 0.71,
`IsSurfaceWallRunnable` returns false for the vertical wall `(0,-1,0)`, whose Z
lies between 0 and the threshold, and true for the floor `(0,0,1)` and for the
overhang `(0,-1,-1/2)`. -/
theorem IsSurfaceWallRunnable_inverted :
    (0 ≤ (0 : ℚ) ∧ (0 : ℚ) ≤ ScenarioA.WalkableFloorZ) ∧
      IsSurfaceWallRunnable ScenarioA ⟨0, -1, 0⟩ = false ∧
      IsSurfaceWallRunnable ScenarioA ⟨0, 0, 1⟩ = true ∧
      IsSurfaceWallRunnable ScenarioA ⟨0, -1, -1 / 2⟩ = true := by
  refine ⟨?_, ?_, ?_, ?_⟩ <;> norm_num [IsSurfaceWallRunnable, ScenarioA]

/-- C19, refuted as stated: the normal `SteepNormal` has a horizontal part that
is not zero, yet with the right vector `(0,1,0)` the derived pair is the side
`Left` with the zero direction, and the horizontal launch vector
`cross(up, direction)` is no positive multiple of the normal's horizontal
projection; `Jump` from the run on that pair launches straight up, at
`(0,0,420)`. -/
theorem steep_normal_no_push :
    SteepNormal.X ≠ 0 ∧
      GetWallRunSideAndDirection InvSqrtSample ScenarioA SteepNormal =
        (EWallRunSide.Left, ⟨0, 0, 0⟩) ∧
      (¬ ∃ k : ℚ, 0 < k ∧
        FVector.CrossProduct FVector.UpVector
          (GetWallRunSideAndDirection InvSqrtSample ScenarioA SteepNormal).2 =
          FVector.scale k ⟨SteepNormal.X, SteepNormal.Y, 0⟩) ∧
      (SteepRun.CurrentWallRunSide, SteepRun.CurrentDirection) =
        GetWallRunSideAndDirection InvSqrtSample SteepRun SteepNormal ∧
      SteepRun.bIsWallRunning = true ∧
      (Jump InvSqrtSample SteepRun).Launches = [⟨⟨0, 0, 420⟩, false, true⟩] := by
  have hG : GetWallRunSideAndDirection InvSqrtSample ScenarioA SteepNormal =
      (EWallRunSide.Left, ⟨0, 0, 0⟩) := by
    norm_num [GetWallRunSideAndDirection, ScenarioA, SteepNormal, FVector.DotProduct,
      FVector.CrossProduct, FVector.UpVector, FVector.GetSafeNormal, FVector.SizeSquared,
      FVector.ZeroVector]
  have hJ : FVector.GetSafeNormal InvSqrtSample (JumpDirection InvSqrtSample SteepRun) =
      ⟨0, 0, 1⟩ := by
    have hd : SteepRun.CurrentDirection = ⟨0, 0, 0⟩ := rfl
    rw [JumpDirection_not_Right InvSqrtSample SteepRun (by decide), hd]
    norm_num [FVector.CrossProduct, FVector.UpVector, FVector.GetSafeNormal,
      FVector.SizeSquared, FVector.ZeroVector, FVector.add]
  refine ⟨by norm_num [SteepNormal], hG, ?_, ?_, rfl, ?_⟩
  · rintro ⟨k, hk, h⟩
    rw [hG] at h
    have hx := congrArg FVector.X h
    simp only [FVector.CrossProduct, FVector.UpVector, FVector.scale, SteepNormal] at hx
    norm_num at hx
    exact absurd hx (ne_of_gt hk)
  · rw [GetWallRunSideAndDirection_congr InvSqrtSample SteepRun ScenarioA _ rfl, hG]
    rfl
  · rw [Jump_Launches_running InvSqrtSample SteepRun rfl, hJ]
    have hl : SteepRun.Launches = [] := rfl
    have hv : SteepRun.JumpZVelocity = 420 := rfl
    rw [hl, hv]
    norm_num [FVector.scale]

/-- C19, amended: with a reciprocal square root positive on the positive
numbers, for every normal whose horizontal part has squared length `q` at least
the tolerance 1e-8 of `GetSafeNormal`, and a character whose stored side and
direction are the pair derived from that normal: when the reciprocal square
root is accurate enough at `q` that `InvSqrt(q)² * q` is not below the
tolerance, the launch direction that `Jump` normalises is `(k*n.X, k*n.Y, z)`
with `k` and `z` positive, and `Jump` from the running state launches with
`JumpZVelocity` times it; the horizontal launch vector (`cross(direction, up)`
on the side `Right`, `cross(up, direction)` otherwise) is a positive multiple
of the normal's horizontal projection; and for every character the normalised
launch direction has a positive Z component, as has the launch velocity when
`JumpZVelocity` is positive. -/
theorem wall_jump_pushes_away (InvSqrt : ℚ → ℚ) (s : AWallRunCharacter) (n : FVector)
    (hInv : ∀ x, 0 < x → 0 < InvSqrt x) :
    (1 / 100000000 ≤ n.X * n.X + n.Y * n.Y →
        1 / 100000000 ≤
          InvSqrt (n.X * n.X + n.Y * n.Y) * InvSqrt (n.X * n.X + n.Y * n.Y) *
            (n.X * n.X + n.Y * n.Y) →
        (s.CurrentWallRunSide, s.CurrentDirection) = GetWallRunSideAndDirection InvSqrt s n →
        ∃ k z : ℚ, 0 < k ∧ 0 < z ∧
          FVector.GetSafeNormal InvSqrt (JumpDirection InvSqrt s) = ⟨k * n.X, k * n.Y, z⟩ ∧
          (s.bIsWallRunning = true →
            (Jump InvSqrt s).Launches = s.Launches ++
              [⟨⟨s.JumpZVelocity * (k * n.X), s.JumpZVelocity * (k * n.Y),
                  s.JumpZVelocity * z⟩, false, true⟩])) ∧
      (1 / 100000000 ≤ n.X * n.X + n.Y * n.Y →
        (s.CurrentWallRunSide, s.CurrentDirection) = GetWallRunSideAndDirection InvSqrt s n →
        ∃ k : ℚ, 0 < k ∧
          (if s.CurrentWallRunSide = EWallRunSide.Right then
            FVector.CrossProduct s.CurrentDirection FVector.UpVector
          else
            FVector.CrossProduct FVector.UpVector s.CurrentDirection) =
            FVector.scale k ⟨n.X, n.Y, 0⟩) ∧
      0 < (FVector.GetSafeNormal InvSqrt (JumpDirection InvSqrt s)).Z ∧
      (0 < s.JumpZVelocity →
        0 < (FVector.scale s.JumpZVelocity
          (FVector.GetSafeNormal InvSqrt (JumpDirection InvSqrt s))).Z) := by
  have hz := GetSafeNormal_Z_pos InvSqrt hInv (JumpDirection InvSqrt s)
    (JumpDirection_Z InvSqrt s)
  refine ⟨?_, ?_, hz, fun hj => mul_pos hj hz⟩
  · intro hn hAcc hpair
    obtain ⟨k, z, hk, hz', hJ⟩ :=
      JumpDirection_of_derived_pair InvSqrt s n hInv hn hAcc hpair
    refine ⟨k, z, hk, hz', hJ, fun hrun => ?_⟩
    rw [Jump_Launches_running InvSqrt s hrun, hJ]
    rfl
  · intro hn hpair
    unfold GetWallRunSideAndDirection at hpair
    split_ifs at hpair with h
    · obtain ⟨k, hk, hN⟩ := GetSafeNormal_pos_multiple InvSqrt hInv
        (FVector.CrossProduct n FVector.UpVector)
        (by simp only [FVector.SizeSquared, FVector.CrossProduct, FVector.UpVector]; linarith)
      rw [hN] at hpair
      have hs := (Prod.mk.inj hpair).1
      have hd := (Prod.mk.inj hpair).2
      refine ⟨k, hk, ?_⟩
      rw [hs, hd, if_neg (by decide)]
      simp [FVector.CrossProduct, FVector.UpVector, FVector.scale]
    · obtain ⟨k, hk, hN⟩ := GetSafeNormal_pos_multiple InvSqrt hInv
        (FVector.CrossProduct FVector.UpVector n)
        (by simp only [FVector.SizeSquared, FVector.CrossProduct, FVector.UpVector]; linarith)
      rw [hN] at hpair
      have hs := (Prod.mk.inj hpair).1
      have hd := (Prod.mk.inj hpair).2
      refine ⟨k, hk, ?_⟩
      rw [hs, hd, if_pos rfl]
      simp [FVector.CrossProduct, FVector.UpVector, FVector.scale]

/-- C19, amended, worked (Scenario D): running on the left along `(1,0,0)`, the
pair derived from the normal `(0,1,0)`, with jump impulse 420: `Jump` launches
at `(420*(k*0), 420*(k*1), 420*z)` for positive `k` and `z`, away from the
wall and upward. -/
theorem wall_jump_pushes_away_ScenarioD :
    (ScenarioD.CurrentWallRunSide, ScenarioD.CurrentDirection) =
        GetWallRunSideAndDirection InvSqrtSample ScenarioD ⟨0, 1, 0⟩ ∧
      ScenarioD.bIsWallRunning = true ∧
      ∃ k z : ℚ, 0 < k ∧ 0 < z ∧
        (Jump InvSqrtSample ScenarioD).Launches =
          [⟨⟨420 * (k * 0), 420 * (k * 1), 420 * z⟩, false, true⟩] := by
  have hG : (ScenarioD.CurrentWallRunSide, ScenarioD.CurrentDirection) =
      GetWallRunSideAndDirection InvSqrtSample ScenarioD ⟨0, 1, 0⟩ := by
    rw [GetWallRunSideAndDirection_congr InvSqrtSample ScenarioD ScenarioA _ rfl]
    norm_num [GetWallRunSideAndDirection, ScenarioA, FVector.DotProduct,
      FVector.CrossProduct, FVector.UpVector, FVector.GetSafeNormal, FVector.SizeSquared]
    exact ⟨rfl, rfl⟩
  refine ⟨hG, rfl, ?_⟩
  obtain ⟨k, z, hk, hz, _, hL⟩ := (wall_jump_pushes_away InvSqrtSample ScenarioD ⟨0, 1, 0⟩
    (fun x _ => InvSqrtSample_pos x)).1 (by norm_num) (by norm_num [InvSqrtSample]) hG
  exact ⟨k, z, hk, hz, hL rfl⟩

end WallRun
